import Mathlib

/-!
Verification development for the pixel-art-pipeline repository.

The pipeline batch-generates pixel-art animations: a batch orchestrator
(src/pixelart/generator.py) drives five animation kinds (singles, emotes,
chains, journeys, cycles) through a reference resolver and a remote
generation client, persists returned frames as numbered PNG files
(src/pixelart/assembler.py), and assembles frame directories into looping
GIFs plus static fallback images.  Cost estimation lives in
src/pixelart/config.py.

The embedding below models:
  - the filesystem as an explicit association list of files plus a list of
    existing directories (the only state store of the program);
  - the remote generation client (an external collaborator) as an oracle
    mapping the index of the remote call to either a frame list plus a cost
    or an error, mirroring the `(images, cost)` / raised-exception contract
    of client.generate_animation;
  - PIL image operations (an external library) as abstract deterministic
    byte transformations;
  - Python float costs as rationals.

All orchestration, persistence, naming, skipping, resolution and cost
accumulation logic is translated statement by statement from the source.
-/

namespace PixelArt

/-- Raw file contents, a byte list. -/
abbrev Bytes := List Nat

/-- Filesystem paths as component lists (the model of pathlib.Path). -/
abbrev Path := List String

/-! ### Decimal rendering, modelling Python string formatting

Python writes frame files with `f"frame_{i:02d}.png"`: the decimal digits
of `i`, left-padded with zeros to a minimum width of two. -/

/-- Character for a decimal digit (codepoint 48 + d). -/
def decDigitChar (d : Nat) : Char := Char.ofNat (48 + d)

/-- Fuel-driven decimal digit rendering (most significant digit first). -/
def decCharsAux : Nat → Nat → List Char
  | 0, _ => []
  | fuel + 1, n =>
    if n < 10 then [decDigitChar n]
    else decCharsAux fuel (n / 10) ++ [decDigitChar (n % 10)]

/-- Decimal digits of a natural number, as Python str() renders it. -/
def decChars (n : Nat) : List Char := decCharsAux (n + 1) n

theorem decCharsAux_congr :
    ∀ f₁ f₂ n, n < f₁ → n < f₂ → decCharsAux f₁ n = decCharsAux f₂ n := by
  intro f₁
  induction f₁ with
  | zero => intro f₂ n h; omega
  | succ f ih =>
    intro f₂ n h₁ h₂
    cases f₂ with
    | zero => omega
    | succ g =>
      simp only [decCharsAux]
      by_cases hn : n < 10
      · simp [hn]
      · have hdiv : n / 10 < n := Nat.div_lt_self (by omega) (by omega)
        simp only [hn, if_false]
        rw [ih g (n / 10) (by omega) (by omega)]

theorem decChars_eq (n : Nat) :
    decChars n =
      if n < 10 then [decDigitChar n]
      else decChars (n / 10) ++ [decDigitChar (n % 10)] := by
  unfold decChars
  conv_lhs => rw [decCharsAux]
  by_cases hn : n < 10
  · simp [hn]
  · have hdiv : n / 10 < n := Nat.div_lt_self (by omega) (by omega)
    simp only [hn, if_false]
    rw [decCharsAux_congr n (n / 10 + 1) (n / 10) (by omega) (by omega)]

theorem decChars_ne_nil (n : Nat) : decChars n ≠ [] := by
  rw [decChars_eq]
  by_cases hn : n < 10 <;> simp [hn]

theorem decChars_of_lt_ten {n : Nat} (h : n < 10) :
    decChars n = [decDigitChar n] := by
  rw [decChars_eq]; simp [h]

theorem decChars_length_one {n : Nat} (h : n < 10) :
    (decChars n).length = 1 := by
  rw [decChars_of_lt_ten h]; rfl

theorem decChars_length_ge_two {n : Nat} (h : 10 ≤ n) :
    2 ≤ (decChars n).length := by
  rw [decChars_eq]
  have : ¬ n < 10 := by omega
  simp only [this, if_false, List.length_append, List.length_singleton]
  have := decChars_ne_nil (n / 10)
  have : 1 ≤ (decChars (n / 10)).length := by
    cases h : (decChars (n / 10)) with
    | nil => exact absurd h (decChars_ne_nil _)
    | cons a l => simp
  omega

theorem decDigitChar_injOn :
    ∀ a < 10, ∀ b < 10, decDigitChar a = decDigitChar b → a = b := by decide

theorem decDigitChar_ne_zero : ∀ n, 1 ≤ n → n < 10 → decDigitChar n ≠ '0' := by
  decide

theorem decChars_head_ne_zero :
    ∀ n, 1 ≤ n → ∀ c, (decChars n).head? = some c → c ≠ '0' := by
  intro n
  induction n using Nat.strong_induction_on with
  | _ n ih =>
    intro h1 c hc
    rw [decChars_eq] at hc
    by_cases hn : n < 10
    · simp only [hn, if_true, List.head?_cons, Option.some.injEq] at hc
      subst hc
      exact decDigitChar_ne_zero n h1 hn
    · simp only [hn, if_false] at hc
      have hne := decChars_ne_nil (n / 10)
      rw [List.head?_append_of_ne_nil _ hne] at hc
      exact ih (n / 10) (Nat.div_lt_self (by omega) (by omega)) (by omega) c hc

theorem decChars_inj : ∀ a b, decChars a = decChars b → a = b := by
  intro a
  induction a using Nat.strong_induction_on with
  | _ a ih =>
    intro b h
    rw [decChars_eq a, decChars_eq b] at h
    by_cases ha : a < 10 <;> by_cases hb : b < 10
    · simp only [ha, hb, if_true, List.cons.injEq] at h
      exact decDigitChar_injOn a ha b hb h.1
    · simp only [ha, hb, if_true, if_false] at h
      have hl := congrArg List.length h
      simp only [List.length_append, List.length_singleton] at hl
      have hne := decChars_ne_nil (b / 10)
      cases hd : decChars (b / 10) with
      | nil => exact absurd hd hne
      | cons x l => rw [hd] at hl; simp at hl
    · simp only [ha, hb, if_true, if_false] at h
      have hl := congrArg List.length h
      simp only [List.length_append, List.length_singleton] at hl
      have hne := decChars_ne_nil (a / 10)
      cases hd : decChars (a / 10) with
      | nil => exact absurd hd hne
      | cons x l => rw [hd] at hl; simp at hl
    · simp only [ha, hb, if_false] at h
      have h2 := List.append_inj' h rfl
      have hdiv : a / 10 = b / 10 :=
        ih (a / 10) (Nat.div_lt_self (by omega) (by omega)) (b / 10) h2.1
      have hmod : a % 10 = b % 10 := by
        have := h2.2
        simp only [List.cons.injEq] at this
        exact decDigitChar_injOn (a % 10) (Nat.mod_lt _ (by omega)) (b % 10)
          (Nat.mod_lt _ (by omega)) this.1
      omega

/-- Zero-padded minimum-width-two decimal, modelling the format spec 02d. -/
def pad2Chars (n : Nat) : List Char :=
  if n < 10 then '0' :: decChars n else decChars n

theorem pad2Chars_inj : ∀ a b, pad2Chars a = pad2Chars b → a = b := by
  intro a b h
  unfold pad2Chars at h
  by_cases ha : a < 10 <;> by_cases hb : b < 10
  · simp only [ha, hb, if_true, List.cons.injEq] at h
    exact decChars_inj a b h.2
  · simp only [ha, hb, if_true, if_false] at h
    exfalso
    have : (decChars b).head? = some '0' := by rw [← h]; rfl
    exact decChars_head_ne_zero b (by omega) '0' this rfl
  · simp only [ha, hb, if_true, if_false] at h
    exfalso
    have : (decChars a).head? = some '0' := by rw [h]; rfl
    exact decChars_head_ne_zero a (by omega) '0' this rfl
  · simp only [ha, hb, if_false] at h
    exact decChars_inj a b h

theorem pad2Chars_length_two {n : Nat} (h : n < 100) :
    (pad2Chars n).length = 2 := by
  unfold pad2Chars
  by_cases hn : n < 10
  · simp [hn, decChars_length_one hn]
  · simp only [hn, if_false]
    rw [decChars_eq]
    simp only [hn, if_false, List.length_append, List.length_singleton]
    have : n / 10 < 10 := by omega
    rw [decChars_length_one this]

/-- Name of the frame file with index n: the model of f-string
frame_{n:02d}.png from assembler.save_frames / save_frames_offset. -/
def frameName (n : Nat) : String := ⟨"frame_".data ++ pad2Chars n ++ ".png".data⟩

theorem frameName_inj : ∀ a b, frameName a = frameName b → a = b := by
  intro a b h
  unfold frameName at h
  have hdata : "frame_".data ++ pad2Chars a ++ ".png".data
      = "frame_".data ++ pad2Chars b ++ ".png".data := congrArg String.data h
  rw [List.append_assoc, List.append_assoc] at hdata
  have h1 := List.append_inj hdata rfl
  have h2 := List.append_inj' h1.2 rfl
  exact pad2Chars_inj a b h2.1

theorem frameName_15 : frameName 15 = "frame_15.png" := by decide

theorem frameName_16 : frameName 16 = "frame_16.png" := by decide

/-! ### Lexicographic string order

Python sorted() on filenames compares strings lexicographically by code
point.  We model the order on the code-point key of a string. -/

/-- Code-point key of a string. -/
def strKey (s : String) : List Nat := s.data.map Char.toNat

/-- Strict lexicographic order on code-point keys, modelling Python string
comparison. -/
def keyLt : List Nat → List Nat → Bool
  | _, [] => false
  | [], _ :: _ => true
  | a :: as, b :: bs =>
    if a < b then true
    else if b < a then false
    else keyLt as bs

theorem keyLt_irrefl : ∀ l, keyLt l l = false := by
  intro l
  induction l with
  | nil => rfl
  | cons a as ih => simp [keyLt, ih]

theorem keyLt_trans :
    ∀ {a b c : List Nat}, keyLt a b = true → keyLt b c = true → keyLt a c = true := by
  intro a
  induction a with
  | nil =>
    intro b c hab hbc
    cases b with
    | nil => simp [keyLt] at hab
    | cons y ys =>
      cases c with
      | nil => simp [keyLt] at hbc
      | cons z zs => simp [keyLt]
  | cons x xs ih =>
    intro b c hab hbc
    cases b with
    | nil => simp [keyLt] at hab
    | cons y ys =>
      cases c with
      | nil => simp [keyLt] at hbc
      | cons z zs =>
        simp only [keyLt] at hab hbc ⊢
        by_cases hxy : x < y
        · by_cases hyz : y < z
          · have hxz : x < z := by omega
            simp [hxz]
          · by_cases hzy : z < y
            · simp [hyz, hzy] at hbc
            · have heq : y = z := by omega
              subst heq
              simp [hxy]
        · by_cases hyx : y < x
          · simp [hxy, hyx] at hab
          · have heq : x = y := by omega
            subst heq
            simp only [lt_irrefl, if_false] at hab
            by_cases hxz : x < z
            · simp [hxz]
            · by_cases hzx : z < x
              · simp [hxz, hzx] at hbc
              · have heq2 : x = z := by omega
                subst heq2
                simp only [lt_irrefl, if_false] at hbc ⊢
                exact ih hab hbc

theorem keyLt_conn :
    ∀ {a b : List Nat}, keyLt a b = false → keyLt b a = false → a = b := by
  intro a
  induction a with
  | nil =>
    intro b hab _
    cases b with
    | nil => rfl
    | cons y ys => simp [keyLt] at hab
  | cons x xs ih =>
    intro b hab hba
    cases b with
    | nil => simp [keyLt] at hba
    | cons y ys =>
      simp only [keyLt] at hab hba
      by_cases hxy : x < y
      · simp [hxy] at hab
      · by_cases hyx : y < x
        · simp [hyx, hxy] at hba
        · have hx : x = y := by omega
          subst hx
          simp only [lt_irrefl, if_false] at hab hba
          rw [ih hab hba]

/-- Weak lexicographic order on strings (the one produced by Python
sorted(): a is at most b when b is not strictly below a). -/
def nameLe (a b : String) : Prop := keyLt (strKey b) (strKey a) = false

instance : DecidableRel nameLe := fun _ _ => by unfold nameLe; infer_instance

theorem nameLe_refl (a : String) : nameLe a a := keyLt_irrefl _

instance : IsTotal String nameLe where
  total a b := by
    unfold nameLe
    rcases Bool.eq_false_or_eq_true (keyLt (strKey b) (strKey a)) with h | h
    · rcases Bool.eq_false_or_eq_true (keyLt (strKey a) (strKey b)) with h2 | h2
      · exfalso
        have := keyLt_trans h h2
        rw [keyLt_irrefl] at this
        simp at this
      · exact Or.inr h2
    · exact Or.inl h

instance : IsTrans String nameLe where
  trans a b c hab hbc := by
    unfold nameLe at hab hbc ⊢
    rcases Bool.eq_false_or_eq_true (keyLt (strKey c) (strKey a)) with hv | hv
    · exfalso
      rcases Bool.eq_false_or_eq_true (keyLt (strKey a) (strKey b)) with h | h
      · have := keyLt_trans hv h
        rw [hbc] at this
        simp at this
      · have hk : strKey a = strKey b := keyLt_conn h hab
        rw [hk, hbc] at hv
        simp at hv
    · exact hv

/-! ### Base64 transfer codec

The client returns frames as base64 payloads; assembler.save_frames decodes
with base64.b64decode, and generator.generate_cycles re-encodes forward
frame bytes with base64.b64encode. -/

/-- Value of a base64 alphabet character. -/
def b64CharVal (c : Char) : Option Nat :=
  if 'A' ≤ c ∧ c ≤ 'Z' then some (c.toNat - 65)
  else if 'a' ≤ c ∧ c ≤ 'z' then some (c.toNat - 97 + 26)
  else if '0' ≤ c ∧ c ≤ '9' then some (c.toNat - 48 + 52)
  else if c = '+' then some 62
  else if c = '/' then some 63
  else none

/-- Decode base64 quartets into byte triples, honouring trailing padding.
Invalid input decodes to [] (the source would raise instead; no claim
depends on malformed payloads). -/
def b64DecodeQuads : List Char → Bytes
  | c1 :: c2 :: c3 :: c4 :: rest =>
    match b64CharVal c1, b64CharVal c2 with
    | some v1, some v2 =>
      let b1 := v1 * 4 + v2 / 16
      if c3 = '=' then [b1]
      else
        match b64CharVal c3 with
        | some v3 =>
          let b2 := (v2 % 16) * 16 + v3 / 4
          if c4 = '=' then [b1, b2]
          else
            match b64CharVal c4 with
            | some v4 => b1 :: b2 :: ((v3 % 4) * 64 + v4) :: b64DecodeQuads rest
            | none => []
        | none => []
    | _, _ => []
  | _ => []

/-- Model of base64.b64decode on the transfer-encoded frame payload. -/
def b64decode (s : String) : Bytes := b64DecodeQuads s.data

/-- Base64 alphabet character for a 6-bit value. -/
def b64ValChar (n : Nat) : Char :=
  if n < 26 then Char.ofNat (65 + n)
  else if n < 52 then Char.ofNat (97 + (n - 26))
  else if n < 62 then Char.ofNat (48 + (n - 52))
  else if n = 62 then '+'
  else '/'

/-- Encode byte triples into base64 quartets with trailing padding. -/
def b64EncodeTriples : Bytes → List Char
  | [] => []
  | [b1] =>
    [b64ValChar (b1 / 4), b64ValChar ((b1 % 4) * 16), '=', '=']
  | [b1, b2] =>
    [b64ValChar (b1 / 4), b64ValChar ((b1 % 4) * 16 + b2 / 16),
     b64ValChar ((b2 % 16) * 4), '=']
  | b1 :: b2 :: b3 :: rest =>
    b64ValChar (b1 / 4) :: b64ValChar ((b1 % 4) * 16 + b2 / 16) ::
    b64ValChar ((b2 % 16) * 4 + b3 / 64) :: b64ValChar (b3 % 64) ::
    b64EncodeTriples rest

/-- Model of base64.b64encode on raw file bytes. -/
def b64encode (b : Bytes) : String := ⟨b64EncodeTriples b⟩

/-! ### Filesystem model

The program's only state store is the output directory tree.  We model it
as an association list of files (path to contents, kept in creation order,
matching the insertion-ordered metadata a directory scan reflects) plus the
list of directories that exist. -/

structure FS where
  files : List (Path × Bytes)
  dirs : List Path
  deriving DecidableEq

/-- The empty filesystem. -/
def emptyFS : FS := ⟨[], []⟩

/-- First-match association lookup. -/
def lookupFile : List (Path × Bytes) → Path → Option Bytes
  | [], _ => none
  | e :: rest, p => if e.1 = p then some e.2 else lookupFile rest p

/-- Contents of the file at p, when present. -/
def FS.read (fs : FS) (p : Path) : Option Bytes := lookupFile fs.files p

/-- Model of Path.exists() on a file path. -/
def FS.fileExists (fs : FS) (p : Path) : Bool := (fs.read p).isSome

/-- Membership test on the directory list. -/
def dirMem : List Path → Path → Bool
  | [], _ => false
  | d :: rest, p => if d = p then true else dirMem rest p

/-- Model of Path.exists() on a directory path. -/
def FS.dirExists (fs : FS) (p : Path) : Bool := dirMem fs.dirs p

/-- Record one directory as existing (idempotent). -/
def FS.addDir (fs : FS) (d : Path) : FS :=
  if fs.dirExists d then fs else { fs with dirs := fs.dirs ++ [d] }

/-- Every ancestor of a path, the path itself included. -/
def pathAncestors (p : Path) : List Path :=
  (List.range (p.length + 1)).map (fun i => p.take i)

/-- Model of Path.mkdir(parents=True, exist_ok=True): records the
directory and all its ancestors, never errors when they already exist. -/
def FS.mkdirp (fs : FS) (p : Path) : FS :=
  (pathAncestors p).foldl FS.addDir fs

/-- Replace the contents of the first entry with the given key. -/
def replaceFile : List (Path × Bytes) → Path → Bytes → List (Path × Bytes)
  | [], _, _ => []
  | e :: rest, p, b => if e.1 = p then (p, b) :: rest else e :: replaceFile rest p b

/-- Model of open(path, "wb").write(data): overwrites the file in place or
creates it.  The parent directory is recorded as existing — in the source
every write happens inside a directory just created with mkdir (or created
by an earlier frame write in the same call). -/
def FS.writeFile (fs : FS) (p : Path) (b : Bytes) : FS :=
  if (fs.mkdirp p.dropLast).fileExists p then
    { fs.mkdirp p.dropLast with files := replaceFile (fs.mkdirp p.dropLast).files p b }
  else
    { fs.mkdirp p.dropLast with files := (fs.mkdirp p.dropLast).files ++ [(p, b)] }

/-- Names of the files lying directly in directory d. -/
def namesIn : List (Path × Bytes) → Path → List String
  | [], _ => []
  | e :: rest, d =>
    if e.1.dropLast = d then
      match e.1.getLast? with
      | some n => n :: namesIn rest d
      | none => namesIn rest d
    else namesIn rest d

/-- Model of fnmatch against the glob pattern frame_*.png. -/
def matchesFramePattern (s : String) : Bool :=
  "frame_".data.isPrefixOf s.data && ".png".data.isSuffixOf s.data

/-- Model of sorted(directory.glob("frame_*.png")): the matching file
names of the directory in lexicographic order. -/
def FS.globFrames (fs : FS) (d : Path) : List String :=
  List.insertionSort nameLe ((namesIn fs.files d).filter matchesFramePattern)

/-! ### Filesystem lemmas -/

theorem lookupFile_append_some {l₁ l₂ : List (Path × Bytes)} {p : Path} {b : Bytes}
    (h : lookupFile l₁ p = some b) : lookupFile (l₁ ++ l₂) p = some b := by
  induction l₁ with
  | nil => simp [lookupFile] at h
  | cons e rest ih =>
    simp only [lookupFile, List.cons_append] at h ⊢
    by_cases he : e.1 = p
    · simpa [he] using h
    · simp only [he, if_false] at h ⊢
      exact ih h

theorem lookupFile_append_none {l₁ l₂ : List (Path × Bytes)} {p : Path}
    (h : lookupFile l₁ p = none) : lookupFile (l₁ ++ l₂) p = lookupFile l₂ p := by
  induction l₁ with
  | nil => simp
  | cons e rest ih =>
    simp only [lookupFile, List.cons_append] at h ⊢
    by_cases he : e.1 = p
    · simp [he] at h
    · simp only [he, if_false] at h ⊢
      exact ih h

theorem lookupFile_replaceFile_some {l : List (Path × Bytes)} {p : Path} {b : Bytes}
    (h : (lookupFile l p).isSome = true) :
    lookupFile (replaceFile l p b) p = some b := by
  induction l with
  | nil => simp [lookupFile] at h
  | cons e rest ih =>
    simp only [lookupFile, replaceFile] at h ⊢
    by_cases he : e.1 = p
    · simp [he, lookupFile]
    · simp only [he, if_false, lookupFile] at h ⊢
      exact ih h

theorem lookupFile_replaceFile_ne {l : List (Path × Bytes)} {p q : Path} {b : Bytes}
    (h : q ≠ p) : lookupFile (replaceFile l p b) q = lookupFile l q := by
  induction l with
  | nil => rfl
  | cons e rest ih =>
    simp only [replaceFile, lookupFile]
    by_cases he : e.1 = p
    · simp only [he, if_true, lookupFile]
      have : ¬ p = q := fun hc => h hc.symm
      simp [this, he]
    · simp only [he, if_false, lookupFile, ih]

theorem lookupFile_isSome_of_mem {l : List (Path × Bytes)} {p : Path} {b : Bytes}
    (h : (p, b) ∈ l) : (lookupFile l p).isSome = true := by
  induction l with
  | nil => simp at h
  | cons e rest ih =>
    simp only [List.mem_cons] at h
    simp only [lookupFile]
    by_cases he : e.1 = p
    · simp [he]
    · rcases h with h | h
      · exact absurd (congrArg Prod.fst h.symm) he
      · simp only [he, if_false]
        exact ih h

theorem lookupFile_mem_of_some {l : List (Path × Bytes)} {p : Path} {b : Bytes}
    (h : lookupFile l p = some b) : (p, b) ∈ l := by
  induction l with
  | nil => simp [lookupFile] at h
  | cons e rest ih =>
    simp only [lookupFile] at h
    by_cases he : e.1 = p
    · simp only [he, if_true, Option.some.injEq] at h
      have : e = (p, b) := Prod.ext he h
      rw [← this]
      exact List.mem_cons_self _ _
    · simp only [he, if_false] at h
      exact List.mem_cons_of_mem _ (ih h)

theorem foldl_addDir_files (ds : List Path) (fs : FS) :
    (ds.foldl FS.addDir fs).files = fs.files := by
  induction ds generalizing fs with
  | nil => rfl
  | cons d rest ih =>
    simp only [List.foldl_cons]
    rw [ih]
    unfold FS.addDir
    by_cases h : fs.dirExists d = true <;> simp [h]

theorem FS.files_mkdirp (fs : FS) (p : Path) : (fs.mkdirp p).files = fs.files :=
  foldl_addDir_files _ _

theorem FS.read_mkdirp (fs : FS) (p q : Path) : (fs.mkdirp p).read q = fs.read q := by
  unfold FS.read
  rw [FS.files_mkdirp]

theorem FS.read_writeFile_self (fs : FS) (p : Path) (b : Bytes) :
    (fs.writeFile p b).read p = some b := by
  unfold FS.writeFile
  cases hfe : (fs.mkdirp p.dropLast).fileExists p with
  | true =>
    rw [if_pos rfl]
    exact lookupFile_replaceFile_some hfe
  | false =>
    rw [if_neg (by simp)]
    have hnone : (fs.mkdirp p.dropLast).read p = none := by
      cases hv : (fs.mkdirp p.dropLast).read p with
      | none => rfl
      | some c =>
        unfold FS.fileExists at hfe
        rw [hv] at hfe
        simp at hfe
    show lookupFile _ p = _
    rw [lookupFile_append_none hnone]
    simp [lookupFile]

theorem FS.read_writeFile_ne (fs : FS) {p q : Path} (b : Bytes) (h : q ≠ p) :
    (fs.writeFile p b).read q = fs.read q := by
  unfold FS.writeFile
  cases hfe : (fs.mkdirp p.dropLast).fileExists p with
  | true =>
    rw [if_pos rfl]
    show lookupFile _ q = _
    rw [lookupFile_replaceFile_ne h]
    exact fs.read_mkdirp p.dropLast q
  | false =>
    rw [if_neg (by simp)]
    show lookupFile _ q = _
    cases hv : lookupFile (fs.mkdirp p.dropLast).files q with
    | none =>
      rw [lookupFile_append_none hv]
      simp only [lookupFile, if_neg (fun hc : p = q => h hc.symm)]
      rw [← hv]
      exact fs.read_mkdirp p.dropLast q
    | some c =>
      rw [lookupFile_append_some hv]
      rw [← hv]
      exact fs.read_mkdirp p.dropLast q

theorem path_eq_append_iff {p d : Path} {n : String} :
    p = d ++ [n] ↔ (p.dropLast = d ∧ p.getLast? = some n) := by
  constructor
  · rintro rfl
    exact ⟨List.dropLast_concat, List.getLast?_concat d⟩
  · rintro ⟨h1, h2⟩
    rw [← List.dropLast_append_getLast? n h2, h1]

theorem namesIn_append (l₁ l₂ : List (Path × Bytes)) (d : Path) :
    namesIn (l₁ ++ l₂) d = namesIn l₁ d ++ namesIn l₂ d := by
  induction l₁ with
  | nil => rfl
  | cons e rest ih =>
    simp only [List.cons_append, namesIn]
    by_cases hd : e.1.dropLast = d
    · simp only [hd, if_true]
      cases e.1.getLast? with
      | none => exact ih
      | some n => simp [ih]
    · simp only [hd, if_false]
      exact ih

theorem namesIn_replaceFile (l : List (Path × Bytes)) (p : Path) (b : Bytes) (d : Path) :
    namesIn (replaceFile l p b) d = namesIn l d := by
  induction l with
  | nil => rfl
  | cons e rest ih =>
    simp only [replaceFile]
    by_cases he : e.1 = p
    · simp only [he, if_true, namesIn]
    · simp only [he, if_false, namesIn, ih]

theorem mem_namesIn {l : List (Path × Bytes)} {d : Path} {n : String} :
    n ∈ namesIn l d ↔ ∃ b, (d ++ [n], b) ∈ l := by
  induction l with
  | nil => simp [namesIn]
  | cons e rest ih =>
    simp only [namesIn]
    by_cases hd : e.1.dropLast = d
    · simp only [hd, if_true]
      cases hg : e.1.getLast? with
      | none =>
        rw [ih]
        constructor
        · rintro ⟨b, hb⟩
          exact ⟨b, List.mem_cons_of_mem _ hb⟩
        · rintro ⟨b, hb⟩
          rcases List.mem_cons.mp hb with hb | hb
          · exfalso
            have : e.1 = d ++ [n] := congrArg Prod.fst hb.symm
            have := (path_eq_append_iff.mp this).2
            rw [hg] at this
            cases this
          · exact ⟨b, hb⟩
      | some m =>
        simp only [List.mem_cons]
        constructor
        · rintro (hm | hm)
          · subst hm
            refine ⟨e.2, Or.inl ?_⟩
            have : e.1 = d ++ [n] := path_eq_append_iff.mpr ⟨hd, hg⟩
            rw [← this]
          · rcases ih.mp hm with ⟨b, hb⟩
            exact ⟨b, Or.inr hb⟩
        · rintro ⟨b, hb | hb⟩
          · left
            have : e.1 = d ++ [n] := congrArg Prod.fst hb.symm
            have h2 := (path_eq_append_iff.mp this).2
            rw [hg] at h2
            exact (Option.some.injEq _ _ ▸ h2).symm
          · exact Or.inr (ih.mpr ⟨b, hb⟩)
    · simp only [hd, if_false]
      rw [ih]
      constructor
      · rintro ⟨b, hb⟩
        exact ⟨b, List.mem_cons_of_mem _ hb⟩
      · rintro ⟨b, hb⟩
        rcases List.mem_cons.mp hb with hb | hb
        · exfalso
          have : e.1 = d ++ [n] := congrArg Prod.fst hb.symm
          exact hd (path_eq_append_iff.mp this).1
        · exact ⟨b, hb⟩

theorem namesIn_writeFile_ne_dir (fs : FS) {p : Path} (b : Bytes) {d : Path}
    (h : p.dropLast ≠ d) :
    namesIn (fs.writeFile p b).files d = namesIn fs.files d := by
  unfold FS.writeFile
  cases hfe : (fs.mkdirp p.dropLast).fileExists p with
  | true =>
    rw [if_pos rfl]
    show namesIn (replaceFile _ _ _) _ = _
    rw [namesIn_replaceFile]
    show namesIn (fs.mkdirp p.dropLast).files d = _
    rw [FS.files_mkdirp]
  | false =>
    rw [if_neg (by simp)]
    show namesIn (_ ++ [(p, b)]) _ = _
    rw [namesIn_append]
    show namesIn (fs.mkdirp p.dropLast).files d ++ _ = _
    rw [FS.files_mkdirp]
    simp [namesIn, h]

theorem namesIn_writeFile_existing (fs : FS) {p : Path} (b : Bytes) (d : Path)
    (h : fs.fileExists p = true) :
    namesIn (fs.writeFile p b).files d = namesIn fs.files d := by
  unfold FS.writeFile
  have hfe : (fs.mkdirp p.dropLast).fileExists p = true := by
    unfold FS.fileExists FS.read at h ⊢
    rw [FS.files_mkdirp]
    exact h
  rw [if_pos hfe]
  show namesIn (replaceFile _ _ _) _ = _
  rw [namesIn_replaceFile]
  show namesIn (fs.mkdirp p.dropLast).files d = _
  rw [FS.files_mkdirp]

theorem namesIn_writeFile_new (fs : FS) {d : Path} {n : String} (b : Bytes)
    (h : fs.fileExists (d ++ [n]) = false) :
    namesIn (fs.writeFile (d ++ [n]) b).files d = namesIn fs.files d ++ [n] := by
  unfold FS.writeFile
  have hfe : (fs.mkdirp (d ++ [n]).dropLast).fileExists (d ++ [n]) = false := by
    unfold FS.fileExists FS.read at h ⊢
    rw [FS.files_mkdirp]
    exact h
  rw [hfe, if_neg (by simp)]
  show namesIn (_ ++ [(d ++ [n], b)]) _ = _
  rw [namesIn_append]
  show namesIn (fs.mkdirp (d ++ [n]).dropLast).files d ++ _ = _
  rw [FS.files_mkdirp]
  simp [namesIn, List.dropLast_concat, List.getLast?_concat]

theorem FS.read_eq_of_namesIn_files (fs gs : FS)
    (h : fs.files = gs.files) (p : Path) : fs.read p = gs.read p := by
  unfold FS.read
  rw [h]

/-! ### Directory existence lemmas -/

theorem dirMem_true_iff {l : List Path} {p : Path} : dirMem l p = true ↔ p ∈ l := by
  induction l with
  | nil => simp [dirMem]
  | cons d rest ih =>
    simp only [dirMem]
    by_cases hd : d = p
    · simp [hd]
    · simp only [hd, if_false, ih, List.mem_cons]
      constructor
      · exact Or.inr
      · rintro (hp | hp)
        · exact absurd hp.symm hd
        · exact hp

theorem FS.dirExists_addDir_mono (fs : FS) {d : Path} (e : Path)
    (h : fs.dirExists d = true) : (fs.addDir e).dirExists d = true := by
  unfold FS.addDir
  by_cases he : fs.dirExists e = true
  · rw [if_pos he]; exact h
  · rw [if_neg he]
    unfold FS.dirExists at h ⊢
    rw [dirMem_true_iff] at h ⊢
    exact List.mem_append_left _ h

theorem FS.dirExists_addDir_self (fs : FS) (d : Path) :
    (fs.addDir d).dirExists d = true := by
  unfold FS.addDir
  by_cases he : fs.dirExists d = true
  · rw [if_pos he]; exact he
  · rw [if_neg he]
    unfold FS.dirExists
    rw [dirMem_true_iff]
    exact List.mem_append_right _ (List.mem_singleton_self _)

theorem foldl_addDir_mono (ds : List Path) (fs : FS) {d : Path}
    (h : fs.dirExists d = true) : (ds.foldl FS.addDir fs).dirExists d = true := by
  induction ds generalizing fs with
  | nil => exact h
  | cons e rest ih =>
    simp only [List.foldl_cons]
    exact ih _ (fs.dirExists_addDir_mono e h)

theorem foldl_addDir_mem (ds : List Path) (fs : FS) {d : Path}
    (h : d ∈ ds) : (ds.foldl FS.addDir fs).dirExists d = true := by
  induction ds generalizing fs with
  | nil => simp at h
  | cons e rest ih =>
    simp only [List.foldl_cons]
    rcases List.mem_cons.mp h with he | he
    · subst he
      exact foldl_addDir_mono _ _ (fs.dirExists_addDir_self d)
    · exact ih _ he

theorem FS.dirExists_mkdirp_self (fs : FS) (p : Path) :
    (fs.mkdirp p).dirExists p = true := by
  unfold FS.mkdirp
  apply foldl_addDir_mem
  unfold pathAncestors
  refine List.mem_map.mpr ⟨p.length, by simp [List.mem_range], by simp⟩

theorem FS.dirExists_mkdirp_mono (fs : FS) (p : Path) {d : Path}
    (h : fs.dirExists d = true) : (fs.mkdirp p).dirExists d = true :=
  foldl_addDir_mono _ _ h

theorem FS.dirExists_writeFile_mono (fs : FS) (p : Path) (b : Bytes) {d : Path}
    (h : fs.dirExists d = true) : (fs.writeFile p b).dirExists d = true := by
  unfold FS.writeFile
  have hm := fs.dirExists_mkdirp_mono p.dropLast h
  cases hfe : (fs.mkdirp p.dropLast).fileExists p with
  | true => rw [if_pos rfl]; exact hm
  | false => rw [if_neg (by simp)]; exact hm

theorem FS.dirExists_writeFile_parent (fs : FS) (d : Path) (n : String) (b : Bytes) :
    (fs.writeFile (d ++ [n]) b).dirExists d = true := by
  unfold FS.writeFile
  have hm : (fs.mkdirp (d ++ [n]).dropLast).dirExists d = true := by
    rw [List.dropLast_concat]
    exact fs.dirExists_mkdirp_self d
  cases hfe : (fs.mkdirp (d ++ [n]).dropLast).fileExists (d ++ [n]) with
  | true => rw [if_pos rfl]; exact hm
  | false => rw [if_neg (by simp)]; exact hm

/-! ### Glob pattern and sorted-listing lemmas -/

theorem isPrefixOf_append_self (l t : List Char) : l.isPrefixOf (l ++ t) = true := by
  induction l with
  | nil => simp [List.isPrefixOf]
  | cons a as ih => simp [List.isPrefixOf, ih]

theorem isSuffixOf_append_self (l t : List Char) : t.isSuffixOf (l ++ t) = true := by
  unfold List.isSuffixOf
  rw [List.reverse_append]
  exact isPrefixOf_append_self _ _

theorem matchesFramePattern_frameName (n : Nat) :
    matchesFramePattern (frameName n) = true := by
  unfold matchesFramePattern frameName
  rw [Bool.and_eq_true]
  constructor
  · show "frame_".data.isPrefixOf ("frame_".data ++ pad2Chars n ++ ".png".data) = true
    rw [List.append_assoc]
    exact isPrefixOf_append_self _ _
  · exact isSuffixOf_append_self _ _

theorem FS.globFrames_length (fs : FS) (d : Path) :
    (fs.globFrames d).length = ((namesIn fs.files d).filter matchesFramePattern).length :=
  List.length_insertionSort _ _

theorem FS.mem_globFrames {fs : FS} {d : Path} {n : String} :
    n ∈ fs.globFrames d ↔
      (matchesFramePattern n = true ∧ ∃ b, (d ++ [n], b) ∈ fs.files) := by
  unfold FS.globFrames
  rw [List.mem_insertionSort, List.mem_filter, mem_namesIn]
  tauto

theorem FS.globFrames_sorted (fs : FS) (d : Path) :
    List.Sorted nameLe (fs.globFrames d) :=
  List.sorted_insertionSort nameLe _

theorem pairwise_getLast?_max {R : String → String → Prop} :
    ∀ {l : List String} {m : String}, List.Pairwise R l → l.getLast? = some m →
      ∀ x ∈ l, x = m ∨ R x m := by
  intro l
  induction l with
  | nil => intro m _ hl; simp at hl
  | cons a rest ih =>
    intro m hp hl x hx
    cases rest with
    | nil =>
      simp only [List.getLast?_singleton, Option.some.injEq] at hl
      rcases List.mem_singleton.mp hx with rfl
      exact Or.inl hl
    | cons b bs =>
      rw [List.getLast?_cons_cons] at hl
      rcases List.pairwise_cons.mp hp with ⟨ha, hrest⟩
      rcases List.mem_cons.mp hx with rfl | hx2
      · right
        exact ha m (List.mem_of_mem_getLast? hl)
      · exact ih hrest hl x hx2

theorem nameLe_getLast_of_mem_glob {fs : FS} {d : Path} {x m : String}
    (hm : (fs.globFrames d).getLast? = some m) (hx : x ∈ fs.globFrames d) :
    nameLe x m := by
  rcases pairwise_getLast?_max (fs.globFrames_sorted d) hm x hx with h | h
  · rw [h]; exact nameLe_refl m
  · exact h

theorem FS.fileExists_iff_mem_namesIn {fs : FS} {d : Path} {n : String} :
    fs.fileExists (d ++ [n]) = true ↔ n ∈ namesIn fs.files d := by
  unfold FS.fileExists FS.read
  rw [mem_namesIn]
  constructor
  · intro h
    cases hv : lookupFile fs.files (d ++ [n]) with
    | none => rw [hv] at h; simp at h
    | some b => exact ⟨b, lookupFile_mem_of_some hv⟩
  · rintro ⟨b, hb⟩
    exact lookupFile_isSome_of_mem hb

theorem FS.globFrames_eq_nil_iff {fs : FS} {d : Path} :
    fs.globFrames d = [] ↔ (namesIn fs.files d).filter matchesFramePattern = [] := by
  constructor
  · intro h
    have hlen := fs.globFrames_length d
    rw [h] at hlen
    exact List.length_eq_zero.mp hlen.symm
  · intro h
    unfold FS.globFrames
    rw [h]
    rfl

theorem FS.not_fileExists_of_globFrames_nil {fs : FS} {d : Path} {n : String}
    (hg : fs.globFrames d = []) (hp : matchesFramePattern n = true) :
    fs.fileExists (d ++ [n]) = false := by
  cases hv : fs.fileExists (d ++ [n]) with
  | false => rfl
  | true =>
    exfalso
    have hmem := FS.fileExists_iff_mem_namesIn.mp hv
    have hfil : n ∈ (namesIn fs.files d).filter matchesFramePattern :=
      List.mem_filter.mpr ⟨hmem, hp⟩
    rw [FS.globFrames_eq_nil_iff.mp hg] at hfil
    simp at hfil

theorem FS.globFrames_writeFile_ne_dir (fs : FS) {p : Path} (b : Bytes) {d : Path}
    (h : p.dropLast ≠ d) : (fs.writeFile p b).globFrames d = fs.globFrames d := by
  unfold FS.globFrames
  rw [namesIn_writeFile_ne_dir fs b h]

theorem FS.globFrames_writeFile_existing (fs : FS) {p : Path} (b : Bytes) (d : Path)
    (h : fs.fileExists p = true) :
    (fs.writeFile p b).globFrames d = fs.globFrames d := by
  unfold FS.globFrames
  rw [namesIn_writeFile_existing fs b d h]

/-! ### Data model of the pipeline -/

/-- A returned frame: its transfer-encoded payload.  The dicts returned by
the API (and rebuilt in generate_cycles) carry type/base64/format keys, of
which only the base64 payload is ever read. -/
structure Frame where
  base64 : String
  deriving DecidableEq

/-- Result of one successful remote generation call of
client.generate_animation: the ordered frame list and the reported cost in
USD (a rational models the float). -/
structure GenResult where
  frames : List Frame
  cost : ℚ
  deriving DecidableEq

/-- The remote generation client as an oracle over the index of the call
within the run: either frames plus cost, or the message of the raised
error. -/
def Oracle := Nat → Except String GenResult

deriving instance DecidableEq for Except

/-- One remote call as issued by the orchestrator: the reference image
path, the prompt, and the outcome the client returned. -/
structure CallRecord where
  ref : Path
  prompt : String
  outcome : Except String GenResult
  deriving DecidableEq

/-- Orchestrator run state: the filesystem, the log of remote calls issued
so far (the oracle is consulted at the current log length), and the
accumulated cost. -/
structure RunState where
  fs : FS
  log : List CallRecord
  cost : ℚ
  deriving DecidableEq

/-- Entry of the singles catalog: a prompt. -/
structure SingleEntry where
  prompt : String
  deriving DecidableEq

/-- Entry of the emotes catalog: a prompt. -/
structure EmoteEntry where
  prompt : String
  deriving DecidableEq

/-- One sequence step of a chain or journey: from, to and prompt, the
first two possibly absent (step.get falls back to defaults). -/
structure Step where
  fromShape : Option String
  toShape : Option String
  prompt : String
  deriving DecidableEq

/-- Entry of the chains or journeys catalog: optional label plus steps. -/
structure SequenceEntry where
  label : Option String
  steps : List Step
  deriving DecidableEq

/-- Entry of the cycles catalog: shape plus the two prompts. -/
structure CycleEntry where
  shape : String
  forwardPrompt : String
  reversePrompt : String
  deriving DecidableEq

/-- The parsed pipeline configuration (config.PipelineConfig).  Catalogs
are association lists keyed by animation name, mirroring the
insertion-ordered dicts parsed from YAML. -/
structure PipelineConfig where
  reference : Path
  outputDir : Path
  frameSize : Nat
  upscaleSize : Nat
  frameDurationMs : Nat
  singles : List (String × SingleEntry)
  emotes : List (String × EmoteEntry)
  chains : List (String × SequenceEntry)
  journeys : List (String × SequenceEntry)
  cycles : List (String × CycleEntry)
  deriving DecidableEq

def PipelineConfig.singles_dir (c : PipelineConfig) : Path := c.outputDir ++ ["singles"]

def PipelineConfig.emotes_dir (c : PipelineConfig) : Path := c.outputDir ++ ["emotes"]

def PipelineConfig.chains_dir (c : PipelineConfig) : Path := c.outputDir ++ ["chains"]

def PipelineConfig.journeys_dir (c : PipelineConfig) : Path := c.outputDir ++ ["journeys"]

def PipelineConfig.cycles_dir (c : PipelineConfig) : Path := c.outputDir ++ ["cycles"]

def PipelineConfig.static_dir (c : PipelineConfig) : Path := c.outputDir ++ ["static"]

/-! ### Frame codec and assembler (src/pixelart/assembler.py) -/

/-- Shared write loop of save_frames and save_frames_offset: decode each
payload and write it as frame_<idx>.png with idx counting up from the
start index, returning the saved paths in input order. -/
def saveFramesGo (dir : Path) : List Frame → Nat → FS → FS × List Path
  | [], _, fs => (fs, [])
  | f :: rest, i, fs =>
    (((saveFramesGo dir rest (i + 1)
        (fs.writeFile (dir ++ [frameName i]) (b64decode f.base64)))).1,
      (dir ++ [frameName i]) ::
        (saveFramesGo dir rest (i + 1)
          (fs.writeFile (dir ++ [frameName i]) (b64decode f.base64))).2)

/-- assembler.save_frames: create the directory, then write frame_00.png,
frame_01.png and so on. -/
def save_frames (frames : List Frame) (output_dir : Path) (fs : FS) : FS × List Path :=
  saveFramesGo output_dir frames 0 (fs.mkdirp output_dir)

/-- assembler.save_frames_offset: same, with numbering starting at
offset (frame numbering continuation for emotes). -/
def save_frames_offset (frames : List Frame) (output_dir : Path) (offset : Nat)
    (fs : FS) : FS × List Path :=
  saveFramesGo output_dir frames offset (fs.mkdirp output_dir)

/-- Abstract model of the PIL nearest-neighbour resize to size by size:
the pipeline never inspects pixel data, so the external operation is an
opaque deterministic transformation of the bytes. -/
def upscaleNearest (size : Nat) (img : Bytes) : Bytes := size :: img

/-- Abstract model of the PIL animated-GIF encoder (infinite loop,
per-frame duration, full-canvas-clear disposal, optimized palette). -/
def gifEncode (durationMs : Nat) (frames : List Bytes) : Bytes :=
  durationMs :: frames.flatten

/-- assembler.frames_to_gif: list the matching frames in sorted order; if
none, return absent and write nothing; otherwise upscale every frame and
write the encoded looping animation at output_path (creating parents).
The reads cannot miss (the names come from the directory listing); getD
only renders the model total. -/
def frames_to_gif (frame_dir : Path) (output_path : Path) (upscale_size : Nat)
    (duration_ms : Nat) (fs : FS) : FS × Option Path :=
  if fs.globFrames frame_dir = [] then (fs, none)
  else
    (fs.writeFile output_path
      (gifEncode duration_ms
        ((fs.globFrames frame_dir).map
          (fun n => upscaleNearest upscale_size ((fs.read (frame_dir ++ [n])).getD [])))),
     some output_path)

/-- assembler.create_static_fallback: prefer the frame at frame_index
(source default 15); if that file is absent fall back to the last of the
sorted matching frames; return absent only when there are none. -/
def create_static_fallback (frame_dir : Path) (output_path : Path)
    (upscale_size : Nat) (frame_index : Nat) (fs : FS) : FS × Option Path :=
  if fs.fileExists (frame_dir ++ [frameName frame_index]) then
    (fs.writeFile output_path
      (upscaleNearest upscale_size ((fs.read (frame_dir ++ [frameName frame_index])).getD [])),
     some output_path)
  else
    match (fs.globFrames frame_dir).getLast? with
    | none => (fs, none)
    | some n =>
      (fs.writeFile output_path
        (upscaleNearest upscale_size ((fs.read (frame_dir ++ [n])).getD [])),
       some output_path)

/-! ### Batch orchestrator (src/pixelart/generator.py) -/

/-- generator._has_frames: the skip-if-exists check. -/
def has_frames (fs : FS) (directory : Path) (min_count : Nat := 16) : Bool :=
  if fs.dirExists directory = false then false
  else decide (min_count ≤ (fs.globFrames directory).length)

/-- generator._assemble_animation: write the GIF next to the frame
directory and the static fallback under static_dir (with the source
default frame_index of 15). -/
def assemble_animation (config : PipelineConfig) (frame_dir : Path) (name : String)
    (fs : FS) : FS :=
  (create_static_fallback frame_dir (config.static_dir ++ [name ++ ".png"])
    config.upscaleSize 15
    (frames_to_gif frame_dir (frame_dir.dropLast ++ [name ++ ".gif"])
      config.upscaleSize config.frameDurationMs fs).1).1

/-- Scratch path standing for tempfile.mktemp(suffix=".png"); no claim
depends on temporary-name freshness, only on the file fed to the client. -/
def tmpRefPath : Path := ["tmp", "step_ref.png"]

/-- generator._resolve_step_reference, with the temporary-file side effect
made explicit in the returned filesystem. -/
def resolve_step_reference (config : PipelineConfig) (step : Step)
    (previous_frames : List Frame) (fs : FS) : Path × FS :=
  let from_shape := step.fromShape.getD ""
  if from_shape = "" ∨ from_shape = "liquid" ∨ from_shape = "reference" ∨
      from_shape = "base" then
    (config.reference, fs)
  else if fs.fileExists (config.singles_dir ++ [from_shape, "frame_15.png"]) then
    (config.singles_dir ++ [from_shape, "frame_15.png"], fs)
  else
    match previous_frames.getLast? with
    | some f => (tmpRefPath, fs.writeFile tmpRefPath (b64decode f.base64))
    | none => (config.reference, fs)

/-- Target filtering of generate_singles / generate_emotes /
generate_journeys: "if targets:" is Python truthiness, so an absent or
empty target list leaves the catalog whole. -/
def applyTargets {α : Type} (items : List (String × α))
    (targets : Option (List String)) : List (String × α) :=
  match targets with
  | none => items
  | some ts => if ts = [] then items else items.filter (fun kv => ts.contains kv.1)

/-- Body of the per-item loop of generator.generate_singles: skip when 16
frames exist, else one remote call from the project reference; on success
persist from index 0, add the cost and assemble; on failure log and move
on. -/
def singleItem (oracle : Oracle) (config : PipelineConfig) (st : RunState)
    (item : String × SingleEntry) : RunState :=
  if has_frames st.fs (config.singles_dir ++ [item.1]) 16 then st
  else
    match oracle st.log.length with
    | .error e => { st with log := st.log ++ [⟨config.reference, item.2.prompt, .error e⟩] }
    | .ok res =>
      { fs := assemble_animation config (config.singles_dir ++ [item.1]) item.1
          (save_frames res.frames (config.singles_dir ++ [item.1]) st.fs).1,
        log := st.log ++ [⟨config.reference, item.2.prompt, .ok res⟩],
        cost := st.cost + res.cost }

/-- generator.generate_singles over the filtered catalog. -/
def generate_singles (oracle : Oracle) (config : PipelineConfig)
    (targets : Option (List String)) (fs : FS) : RunState :=
  (applyTargets config.singles targets).foldl (singleItem oracle config) ⟨fs, [], 0⟩

/-- Body of the per-item loop of generator.generate_emotes: skip without a
call when the corresponding single's frame_15.png is absent, or when
frame_16.png shows the emote already generated; else one remote call with
frame_15 as reference, persisting at offset 16 into the same singles
directory and reassembling. -/
def emoteItem (oracle : Oracle) (config : PipelineConfig) (st : RunState)
    (item : String × EmoteEntry) : RunState :=
  if st.fs.fileExists (config.singles_dir ++ [item.1, "frame_15.png"]) = false then st
  else if st.fs.fileExists (config.singles_dir ++ [item.1, "frame_16.png"]) then st
  else
    match oracle st.log.length with
    | .error e =>
      { st with log := st.log ++
          [⟨config.singles_dir ++ [item.1, "frame_15.png"], item.2.prompt, .error e⟩] }
    | .ok res =>
      { fs := assemble_animation config (config.singles_dir ++ [item.1]) item.1
          (save_frames_offset res.frames (config.singles_dir ++ [item.1]) 16 st.fs).1,
        log := st.log ++
          [⟨config.singles_dir ++ [item.1, "frame_15.png"], item.2.prompt, .ok res⟩],
        cost := st.cost + res.cost }

/-- generator.generate_emotes over the filtered catalog. -/
def generate_emotes (oracle : Oracle) (config : PipelineConfig)
    (targets : Option (List String)) (fs : FS) : RunState :=
  (applyTargets config.emotes targets).foldl (emoteItem oracle config) ⟨fs, [], 0⟩

/-- In-progress state of one chain or journey: the run state plus the
frames accumulated so far in this sequence. -/
structure StepState where
  fs : FS
  log : List CallRecord
  cost : ℚ
  allFrames : List Frame
  deriving DecidableEq

/-- Step loop shared by generate_chains and generate_journeys: resolve the
reference, call the client; on success extend the accumulated frames and
cost and continue, on an error abort the remaining steps of the
sequence. -/
def runSteps (oracle : Oracle) (config : PipelineConfig) :
    List Step → StepState → StepState
  | [], st => st
  | step :: rest, st =>
    match oracle st.log.length with
    | .error e =>
      { st with
        fs := (resolve_step_reference config step st.allFrames st.fs).2,
        log := st.log ++
          [⟨(resolve_step_reference config step st.allFrames st.fs).1, step.prompt, .error e⟩] }
    | .ok res =>
      runSteps oracle config rest
        { fs := (resolve_step_reference config step st.allFrames st.fs).2,
          log := st.log ++
            [⟨(resolve_step_reference config step st.allFrames st.fs).1, step.prompt, .ok res⟩],
          cost := st.cost + res.cost,
          allFrames := st.allFrames ++ res.frames }

/-- Closing phase of one chain or journey: persist the concatenated frames
(when any step produced frames) and assemble. -/
def sequenceFinish (config : PipelineConfig) (dir : Path) (name : String)
    (st1 : StepState) : RunState :=
  if st1.allFrames = [] then ⟨st1.fs, st1.log, st1.cost⟩
  else
    ⟨assemble_animation config dir name (save_frames st1.allFrames dir st1.fs).1,
      st1.log, st1.cost⟩

/-- Body of the per-chain loop of generator.generate_chains. -/
def chainItem (oracle : Oracle) (config : PipelineConfig) (st : RunState)
    (item : String × SequenceEntry) : RunState :=
  if has_frames st.fs (config.chains_dir ++ [item.1]) (item.2.steps.length * 16) then st
  else
    sequenceFinish config (config.chains_dir ++ [item.1]) item.1
      (runSteps oracle config item.2.steps
        ⟨st.fs.mkdirp (config.chains_dir ++ [item.1]), st.log, st.cost, []⟩)

/-- generator.generate_chains (chains always run in full, no targets). -/
def generate_chains (oracle : Oracle) (config : PipelineConfig) (fs : FS) : RunState :=
  config.chains.foldl (chainItem oracle config) ⟨fs, [], 0⟩

/-- Body of the per-journey loop of generator.generate_journeys, same
mechanics as chainItem under journeys_dir. -/
def journeyItem (oracle : Oracle) (config : PipelineConfig) (st : RunState)
    (item : String × SequenceEntry) : RunState :=
  if has_frames st.fs (config.journeys_dir ++ [item.1]) (item.2.steps.length * 16) then st
  else
    sequenceFinish config (config.journeys_dir ++ [item.1]) item.1
      (runSteps oracle config item.2.steps
        ⟨st.fs.mkdirp (config.journeys_dir ++ [item.1]), st.log, st.cost, []⟩)

/-- generator.generate_journeys over the filtered catalog. -/
def generate_journeys (oracle : Oracle) (config : PipelineConfig)
    (targets : Option (List String)) (fs : FS) : RunState :=
  (applyTargets config.journeys targets).foldl (journeyItem oracle config) ⟨fs, [], 0⟩

/-- Reverse-and-combine phase of one cycle, entered once forward frames
are available: one reverse call referenced on the last forward frame; on
success re-read the forward frames from disk, re-encode them, append the
reverse frames, persist into the cycle directory and assemble.  The none
branch mirrors the fact that the source would fault on an empty forward
listing (forward_frames[-1]); it is unreachable when the client returns
frames. -/
def cycleReverse (oracle : Oracle) (config : PipelineConfig) (st : RunState)
    (cycle_name : String) (entry : CycleEntry) (forward_frames : List String) : RunState :=
  match forward_frames.getLast? with
  | none => st
  | some lastName =>
    match oracle st.log.length with
    | .error e =>
      { st with log := st.log ++
          [⟨config.singles_dir ++ [entry.shape, lastName], entry.reversePrompt, .error e⟩] }
    | .ok res =>
      ⟨assemble_animation config (config.cycles_dir ++ [cycle_name]) cycle_name
          (save_frames
            (forward_frames.map (fun n =>
              ⟨b64encode ((st.fs.read (config.singles_dir ++ [entry.shape, n])).getD [])⟩)
              ++ res.frames)
            (config.cycles_dir ++ [cycle_name]) st.fs).1,
        st.log ++
          [⟨config.singles_dir ++ [entry.shape, lastName], entry.reversePrompt, .ok res⟩],
        st.cost + res.cost⟩

/-- Body of the per-cycle loop of generator.generate_cycles: skip when the
cycle directory already holds 32 frames; list the forward singles frames
(empty when the directory is missing); when none exist, generate the
forward animation first and persist it into the singles directory; then
run the reverse-and-combine phase.  A failed forward call logs and moves
on to the next cycle. -/
def cycleItem (oracle : Oracle) (config : PipelineConfig) (st : RunState)
    (item : String × CycleEntry) : RunState :=
  if has_frames st.fs (config.cycles_dir ++ [item.1]) 32 then st
  else
    if (if st.fs.dirExists (config.singles_dir ++ [item.2.shape]) then
          st.fs.globFrames (config.singles_dir ++ [item.2.shape]) else []) = [] then
      match oracle st.log.length with
      | .error e =>
        { st with log := st.log ++ [⟨config.reference, item.2.forwardPrompt, .error e⟩] }
      | .ok res =>
        cycleReverse oracle config
          ⟨(save_frames res.frames (config.singles_dir ++ [item.2.shape]) st.fs).1,
            st.log ++ [⟨config.reference, item.2.forwardPrompt, .ok res⟩],
            st.cost + res.cost⟩
          item.1 item.2
          ((save_frames res.frames (config.singles_dir ++ [item.2.shape]) st.fs).1.globFrames
            (config.singles_dir ++ [item.2.shape]))
    else
      cycleReverse oracle config st item.1 item.2
        (if st.fs.dirExists (config.singles_dir ++ [item.2.shape]) then
          st.fs.globFrames (config.singles_dir ++ [item.2.shape]) else [])

/-- generator.generate_cycles (cycles always run in full, no targets). -/
def generate_cycles (oracle : Oracle) (config : PipelineConfig) (fs : FS) : RunState :=
  config.cycles.foldl (cycleItem oracle config) ⟨fs, [], 0⟩

/-! ### Cost estimation (src/pixelart/config.py) -/

/-- config.PipelineConfig.count_animations: API calls by kind (one per
single, one per emote, one per chain or journey step, one per cycle since
the forward single is reused). -/
structure AnimationCounts where
  singles : Nat
  emotes : Nat
  chains : Nat
  journeys : Nat
  cycles : Nat
  total_api_calls : Nat
  deriving DecidableEq

def PipelineConfig.count_animations (c : PipelineConfig) : AnimationCounts :=
  ⟨c.singles.length, c.emotes.length,
    (c.chains.map (fun kv => kv.2.steps.length)).sum,
    (c.journeys.map (fun kv => kv.2.steps.length)).sum,
    c.cycles.length,
    c.singles.length + c.emotes.length +
      (c.chains.map (fun kv => kv.2.steps.length)).sum +
      (c.journeys.map (fun kv => kv.2.steps.length)).sum +
      c.cycles.length⟩

/-- config.PipelineConfig.estimate_cost: 0.16 USD per 16-frame call. -/
def PipelineConfig.estimate_cost (c : PipelineConfig) : ℚ :=
  (c.count_animations.total_api_calls : ℚ) * (16 / 100)

/-- Sum of the cost figures of exactly the successful calls of a log; a
failed call contributes 0. -/
def succeededCost (log : List CallRecord) : ℚ :=
  (log.map (fun r => match r.outcome with
    | .ok res => res.cost
    | .error _ => 0)).sum

/-! ### Persistence lemmas for the frame codec -/

theorem saveFramesGo_snd (dir : Path) :
    ∀ (frames : List Frame) (i : Nat) (fs : FS),
      (saveFramesGo dir frames i fs).2 =
        (List.range frames.length).map (fun j => dir ++ [frameName (i + j)]) := by
  intro frames
  induction frames with
  | nil => intro i fs; rfl
  | cons f rest ih =>
    intro i fs
    simp only [saveFramesGo, List.length_cons]
    rw [ih, List.range_succ_eq_map]
    simp only [List.map_cons, List.map_map, Nat.add_zero]
    congr 1
    apply List.map_congr_left
    intro j _
    simp only [Function.comp]
    congr 2
    congr 1
    omega

theorem saveFramesGo_read_other (dir : Path) :
    ∀ (frames : List Frame) (i : Nat) (fs : FS) (p : Path),
      (∀ j, j < frames.length → p ≠ dir ++ [frameName (i + j)]) →
      (saveFramesGo dir frames i fs).1.read p = fs.read p := by
  intro frames
  induction frames with
  | nil => intro i fs p _; rfl
  | cons f rest ih =>
    intro i fs p hp
    simp only [saveFramesGo]
    rw [ih (i + 1) _ p ?_]
    · exact FS.read_writeFile_ne fs _ (by
        have := hp 0 (by simp)
        simpa using this)
    · intro j hj
      have h2 := hp (j + 1) (by simp only [List.length_cons]; omega)
      rw [show i + 1 + j = i + (j + 1) from by omega]
      exact h2

theorem saveFramesGo_read_saved (dir : Path) :
    ∀ (frames : List Frame) (i : Nat) (fs : FS) (j : Nat) (hj : j < frames.length),
      (saveFramesGo dir frames i fs).1.read (dir ++ [frameName (i + j)]) =
        some (b64decode (frames.get ⟨j, hj⟩).base64) := by
  intro frames
  induction frames with
  | nil => intro i fs j hj; simp at hj
  | cons f rest ih =>
    intro i fs j hj
    cases j with
    | zero =>
      simp only [saveFramesGo, List.get]
      rw [saveFramesGo_read_other dir rest (i + 1) _ _ ?_]
      · rw [Nat.add_zero]
        exact FS.read_writeFile_self _ _ _
      · intro j2 _ heq
        have h1 : [frameName (i + 0)] = [frameName (i + 1 + j2)] :=
          List.append_cancel_left heq
        have h2 : frameName (i + 0) = frameName (i + 1 + j2) := by
          simpa using h1
        have := frameName_inj _ _ h2
        omega
    | succ j2 =>
      simp only [saveFramesGo, List.get]
      rw [show i + (j2 + 1) = i + 1 + j2 from by omega]
      exact ih (i + 1) _ j2 (by simp only [List.length_cons] at hj; omega)

theorem saveFramesGo_namesIn (dir : Path) :
    ∀ (frames : List Frame) (i : Nat) (fs : FS),
      (∀ j, j < frames.length → fs.fileExists (dir ++ [frameName (i + j)]) = false) →
      namesIn (saveFramesGo dir frames i fs).1.files dir =
        namesIn fs.files dir ++
          (List.range frames.length).map (fun j => frameName (i + j)) := by
  intro frames
  induction frames with
  | nil => intro i fs _; simp [saveFramesGo]
  | cons f rest ih =>
    intro i fs hp
    simp only [saveFramesGo, List.length_cons]
    rw [ih (i + 1) _ ?_]
    · have h0 : fs.fileExists (dir ++ [frameName (i + 0)]) = false :=
        hp 0 (by simp)
      rw [Nat.add_zero] at h0
      rw [namesIn_writeFile_new fs _ h0]
      rw [List.range_succ_eq_map]
      simp only [List.map_cons, List.map_map, Nat.add_zero, List.append_assoc,
        List.singleton_append]
      congr 2
      apply List.map_congr_left
      intro j _
      simp only [Function.comp]
      congr 1
      omega
    · intro j hj
      have h2 := hp (j + 1) (by simp only [List.length_cons]; omega)
      unfold FS.fileExists at h2 ⊢
      rw [FS.read_writeFile_ne fs _ ?_]
      · rw [show i + 1 + j = i + (j + 1) from by omega]
        exact h2
      · intro heq
        have h1 : [frameName (i + 1 + j)] = [frameName i] :=
          List.append_cancel_left heq
        have h3 : frameName (i + 1 + j) = frameName i := by simpa using h1
        have := frameName_inj _ _ h3
        omega

theorem saveFramesGo_namesIn_other (dir : Path) :
    ∀ (frames : List Frame) (i : Nat) (fs : FS) (d : Path), d ≠ dir →
      namesIn (saveFramesGo dir frames i fs).1.files d = namesIn fs.files d := by
  intro frames
  induction frames with
  | nil => intro i fs d _; rfl
  | cons f rest ih =>
    intro i fs d hd
    simp only [saveFramesGo]
    rw [ih (i + 1) _ d hd]
    apply namesIn_writeFile_ne_dir
    rw [List.dropLast_concat]
    exact fun hc => hd hc.symm

theorem saveFramesGo_dirExists_mono (dir : Path) :
    ∀ (frames : List Frame) (i : Nat) (fs : FS) (d : Path),
      fs.dirExists d = true → (saveFramesGo dir frames i fs).1.dirExists d = true := by
  intro frames
  induction frames with
  | nil => intro i fs d h; exact h
  | cons f rest ih =>
    intro i fs d h
    simp only [saveFramesGo]
    exact ih (i + 1) _ d (fs.dirExists_writeFile_mono _ _ h)

theorem save_frames_dirExists (frames : List Frame) (dir : Path) (fs : FS) :
    (save_frames frames dir fs).1.dirExists dir = true := by
  unfold save_frames
  exact saveFramesGo_dirExists_mono dir frames 0 _ dir (fs.dirExists_mkdirp_self dir)

theorem saveFramesGo_globFrames_of_empty (dir : Path) (frames : List Frame) (i : Nat)
    (fs : FS) (hg : fs.globFrames dir = []) :
    (saveFramesGo dir frames i fs).1.globFrames dir =
      List.insertionSort nameLe
        ((List.range frames.length).map (fun j => frameName (i + j))) := by
  unfold FS.globFrames
  rw [saveFramesGo_namesIn dir frames i fs
    (fun j _ => fs.not_fileExists_of_globFrames_nil hg (matchesFramePattern_frameName _))]
  rw [List.filter_append, FS.globFrames_eq_nil_iff.mp hg, List.nil_append]
  congr 1
  apply List.filter_eq_self.mpr
  intro a ha
  rcases List.mem_map.mp ha with ⟨j, _, rfl⟩
  exact matchesFramePattern_frameName _

theorem saveFramesGo_globFrames_length_of_empty (dir : Path) (frames : List Frame)
    (i : Nat) (fs : FS) (hg : fs.globFrames dir = []) :
    ((saveFramesGo dir frames i fs).1.globFrames dir).length = frames.length := by
  rw [saveFramesGo_globFrames_of_empty dir frames i fs hg]
  rw [List.length_insertionSort, List.length_map, List.length_range]

theorem mem_saveFramesGo_globFrames_of_empty {dir : Path} {frames : List Frame}
    {i : Nat} {fs : FS} (hg : fs.globFrames dir = []) {n : String} :
    n ∈ (saveFramesGo dir frames i fs).1.globFrames dir ↔
      ∃ j, j < frames.length ∧ n = frameName (i + j) := by
  rw [saveFramesGo_globFrames_of_empty dir frames i fs hg]
  rw [List.mem_insertionSort, List.mem_map]
  constructor
  · rintro ⟨j, hj, rfl⟩
    exact ⟨j, List.mem_range.mp hj, rfl⟩
  · rintro ⟨j, hj, rfl⟩
    exact ⟨j, List.mem_range.mpr hj, rfl⟩

/-! ### Preservation lemmas for the assembler -/

theorem mkdirp_globFrames (fs : FS) (p d : Path) :
    (fs.mkdirp p).globFrames d = fs.globFrames d := by
  unfold FS.globFrames
  rw [FS.files_mkdirp]

theorem frames_to_gif_fst_read (frame_dir output_path : Path) (us dm : Nat) (fs : FS)
    (p : Path) (h : p ≠ output_path) :
    (frames_to_gif frame_dir output_path us dm fs).1.read p = fs.read p := by
  unfold frames_to_gif
  by_cases hg : fs.globFrames frame_dir = []
  · rw [if_pos hg]
  · rw [if_neg hg]
    exact FS.read_writeFile_ne fs _ h

theorem create_static_fallback_fst_read (frame_dir output_path : Path) (us fi : Nat)
    (fs : FS) (p : Path) (h : p ≠ output_path) :
    (create_static_fallback frame_dir output_path us fi fs).1.read p = fs.read p := by
  unfold create_static_fallback
  by_cases hd : fs.fileExists (frame_dir ++ [frameName fi]) = true
  · rw [if_pos hd]
    exact FS.read_writeFile_ne fs _ h
  · rw [if_neg hd]
    cases hv : (fs.globFrames frame_dir).getLast? with
    | none => rfl
    | some n => exact FS.read_writeFile_ne fs _ h

theorem assemble_animation_read (config : PipelineConfig) (frame_dir : Path)
    (name : String) (fs : FS) (p : Path)
    (h1 : p ≠ frame_dir.dropLast ++ [name ++ ".gif"])
    (h2 : p ≠ config.static_dir ++ [name ++ ".png"]) :
    (assemble_animation config frame_dir name fs).read p = fs.read p := by
  unfold assemble_animation
  rw [create_static_fallback_fst_read _ _ _ _ _ _ h2]
  exact frames_to_gif_fst_read _ _ _ _ _ _ h1

theorem frames_to_gif_fst_namesIn (frame_dir output_path : Path) (us dm : Nat)
    (fs : FS) (d : Path) (h : output_path.dropLast ≠ d) :
    namesIn (frames_to_gif frame_dir output_path us dm fs).1.files d =
      namesIn fs.files d := by
  unfold frames_to_gif
  by_cases hg : fs.globFrames frame_dir = []
  · rw [if_pos hg]
  · rw [if_neg hg]
    exact namesIn_writeFile_ne_dir fs _ h

theorem create_static_fallback_fst_namesIn (frame_dir output_path : Path) (us fi : Nat)
    (fs : FS) (d : Path) (h : output_path.dropLast ≠ d) :
    namesIn (create_static_fallback frame_dir output_path us fi fs).1.files d =
      namesIn fs.files d := by
  unfold create_static_fallback
  by_cases hd : fs.fileExists (frame_dir ++ [frameName fi]) = true
  · rw [if_pos hd]
    exact namesIn_writeFile_ne_dir fs _ h
  · rw [if_neg hd]
    cases hv : (fs.globFrames frame_dir).getLast? with
    | none => rfl
    | some n => exact namesIn_writeFile_ne_dir fs _ h

theorem assemble_animation_namesIn (config : PipelineConfig) (frame_dir : Path)
    (name : String) (fs : FS) (d : Path)
    (h1 : frame_dir.dropLast ≠ d) (h2 : config.static_dir ≠ d) :
    namesIn (assemble_animation config frame_dir name fs).files d =
      namesIn fs.files d := by
  unfold assemble_animation
  rw [create_static_fallback_fst_namesIn _ _ _ _ _ _ (by rwa [List.dropLast_concat])]
  exact frames_to_gif_fst_namesIn _ _ _ _ _ _ (by rwa [List.dropLast_concat])

theorem assemble_animation_globFrames (config : PipelineConfig) (frame_dir : Path)
    (name : String) (fs : FS) (d : Path)
    (h1 : frame_dir.dropLast ≠ d) (h2 : config.static_dir ≠ d) :
    (assemble_animation config frame_dir name fs).globFrames d = fs.globFrames d := by
  unfold FS.globFrames
  rw [assemble_animation_namesIn config frame_dir name fs d h1 h2]

theorem frames_to_gif_dirExists_mono (frame_dir output_path : Path) (us dm : Nat)
    (fs : FS) (d : Path) (h : fs.dirExists d = true) :
    (frames_to_gif frame_dir output_path us dm fs).1.dirExists d = true := by
  unfold frames_to_gif
  by_cases hg : fs.globFrames frame_dir = []
  · rw [if_pos hg]; exact h
  · rw [if_neg hg]
    exact fs.dirExists_writeFile_mono _ _ h

theorem create_static_fallback_dirExists_mono (frame_dir output_path : Path)
    (us fi : Nat) (fs : FS) (d : Path) (h : fs.dirExists d = true) :
    (create_static_fallback frame_dir output_path us fi fs).1.dirExists d = true := by
  unfold create_static_fallback
  by_cases hd : fs.fileExists (frame_dir ++ [frameName fi]) = true
  · rw [if_pos hd]
    exact fs.dirExists_writeFile_mono _ _ h
  · rw [if_neg hd]
    cases hv : (fs.globFrames frame_dir).getLast? with
    | none => exact h
    | some n => exact fs.dirExists_writeFile_mono _ _ h

theorem assemble_animation_dirExists_mono (config : PipelineConfig) (frame_dir : Path)
    (name : String) (fs : FS) (d : Path) (h : fs.dirExists d = true) :
    (assemble_animation config frame_dir name fs).dirExists d = true := by
  unfold assemble_animation
  exact create_static_fallback_dirExists_mono _ _ _ _ _ _
    (frames_to_gif_dirExists_mono _ _ _ _ _ _ h)

/-! ### Shared helpers for the claim theorems -/

theorem has_frames_true_of {fs : FS} {d : Path} {m : Nat}
    (h1 : fs.dirExists d = true) (h2 : m ≤ (fs.globFrames d).length) :
    has_frames fs d m = true := by
  unfold has_frames
  rw [h1]
  simp [h2]

/-- The reserved base-reference aliases of _resolve_step_reference; an
empty from resolves to the base reference as well. -/
def isBaseRefAlias (s : String) : Prop :=
  s = "" ∨ s = "liquid" ∨ s = "reference" ∨ s = "base"

instance (s : String) : Decidable (isBaseRefAlias s) := by
  unfold isBaseRefAlias
  infer_instance

/-! ### Claim theorems -/

/-- C8: for every frame directory yielding zero files matching the frame
pattern, assembling a looping image returns absent, writes no output file
(the filesystem is returned unchanged), and does not raise (frames_to_gif
is a total function into an optional output path). -/
theorem C8_empty_dir_soft_failure (frame_dir output_path : Path)
    (upscale_size duration_ms : Nat) (fs : FS)
    (h : fs.globFrames frame_dir = []) :
    frames_to_gif frame_dir output_path upscale_size duration_ms fs = (fs, none) := by
  unfold frames_to_gif
  rw [if_pos h]

theorem C8_empty_dir_soft_failure_witness :
    emptyFS.globFrames ["out", "frames"] = [] ∧
      frames_to_gif ["out", "frames"] ["out", "anim.gif"] 512 200 emptyFS =
        (emptyFS, none) :=
  ⟨rfl, C8_empty_dir_soft_failure ["out", "frames"] ["out", "anim.gif"] 512 200 emptyFS rfl⟩

/-- Example configuration with 2 singles, 1 emote, one 2-step chain, one
3-step journey and one cycle, as in the cost-estimate example. -/
def exampleCostConfig : PipelineConfig :=
  { reference := ["proj", "reference.png"],
    outputDir := ["proj", "output"],
    frameSize := 64, upscaleSize := 512, frameDurationMs := 200,
    singles := [("flame", ⟨"transforms into a flame"⟩),
                ("star", ⟨"transforms into a star"⟩)],
    emotes := [("flame", ⟨"flame sways gently"⟩)],
    chains := [("flame_to_heart", ⟨some "Fire to Love",
      [⟨some "reference", some "flame", "becomes a flame"⟩,
       ⟨some "flame", some "heart", "becomes a heart"⟩]⟩)],
    journeys := [("hero", ⟨some "Hero",
      [⟨some "reference", some "sword", "becomes sword"⟩,
       ⟨some "sword", some "mushroom", "becomes mushroom"⟩,
       ⟨some "mushroom", some "crown", "becomes crown"⟩]⟩)],
    cycles := [("cycle_flame", ⟨"flame", "becomes a flame", "flame returns to gold"⟩)] }

/-- C9: for a config with 2 singles, 1 emote, one 2-step chain, one 3-step
journey, and one cycle, the reported total API call count equals
2+1+2+3+1 = 9 and the estimated cost equals 9 × 0.16 = 1.44. -/
theorem C9_cost_estimate_example :
    exampleCostConfig.count_animations.total_api_calls = 9 ∧
      exampleCostConfig.estimate_cost = 1.44 := by
  constructor
  · rfl
  · unfold PipelineConfig.estimate_cost
    norm_num [exampleCostConfig, PipelineConfig.count_animations]

/-- C3: reference resolution priority: a from value that is empty or a
reserved base-reference alias resolves to the project reference image
regardless of prior sequence state; otherwise a completed single's present
frame-15 file wins; otherwise the most recent previously produced frame is
materialized to a temporary file; otherwise the project reference is the
ultimate fallback. -/
theorem C3_reference_resolution (config : PipelineConfig) (step : Step)
    (previous_frames : List Frame) (fs : FS) :
    (isBaseRefAlias (step.fromShape.getD "") →
      resolve_step_reference config step previous_frames fs = (config.reference, fs)) ∧
    (¬ isBaseRefAlias (step.fromShape.getD "") →
      fs.fileExists
        (config.singles_dir ++ [step.fromShape.getD "", "frame_15.png"]) = true →
      resolve_step_reference config step previous_frames fs =
        (config.singles_dir ++ [step.fromShape.getD "", "frame_15.png"], fs)) ∧
    (¬ isBaseRefAlias (step.fromShape.getD "") →
      fs.fileExists
        (config.singles_dir ++ [step.fromShape.getD "", "frame_15.png"]) = false →
      ∀ f, previous_frames.getLast? = some f →
        resolve_step_reference config step previous_frames fs =
          (tmpRefPath, fs.writeFile tmpRefPath (b64decode f.base64))) ∧
    (¬ isBaseRefAlias (step.fromShape.getD "") →
      fs.fileExists
        (config.singles_dir ++ [step.fromShape.getD "", "frame_15.png"]) = false →
      previous_frames = [] →
      resolve_step_reference config step previous_frames fs = (config.reference, fs)) := by
  unfold isBaseRefAlias
  refine ⟨?_, ?_, ?_, ?_⟩
  · intro h
    simp only [resolve_step_reference]
    rw [if_pos h]
  · intro h h15
    simp only [resolve_step_reference]
    rw [if_neg h, if_pos h15]
  · intro h h15 f hf
    simp only [resolve_step_reference]
    rw [if_neg h, if_neg (by rw [h15]; simp), hf]
  · intro h h15 hprev
    subst hprev
    simp only [resolve_step_reference]
    rw [if_neg h, if_neg (by rw [h15]; simp)]
    rfl

theorem C3_reference_resolution_witness :
    (isBaseRefAlias "reference" ∧
      resolve_step_reference exampleCostConfig
        ⟨some "reference", some "flame", "p1"⟩ [⟨"QUJD"⟩] emptyFS =
        (exampleCostConfig.reference, emptyFS)) ∧
    (¬ isBaseRefAlias "flame" ∧
      emptyFS.fileExists
        (exampleCostConfig.singles_dir ++ ["flame", "frame_15.png"]) = false ∧
      resolve_step_reference exampleCostConfig
        ⟨some "flame", some "heart", "p2"⟩ [⟨"QUJD"⟩] emptyFS =
        (tmpRefPath, emptyFS.writeFile tmpRefPath (b64decode "QUJD"))) ∧
    (¬ isBaseRefAlias "flame" ∧
      resolve_step_reference exampleCostConfig
        ⟨some "flame", some "heart", "p2"⟩ [] emptyFS =
        (exampleCostConfig.reference, emptyFS)) :=
  ⟨⟨by decide,
    (C3_reference_resolution exampleCostConfig
      ⟨some "reference", some "flame", "p1"⟩ [⟨"QUJD"⟩] emptyFS).1 (by decide)⟩,
   ⟨by decide, by decide,
    (C3_reference_resolution exampleCostConfig
      ⟨some "flame", some "heart", "p2"⟩ [⟨"QUJD"⟩] emptyFS).2.2.1 (by decide) (by decide)
      ⟨"QUJD"⟩ rfl⟩,
   ⟨by decide,
    (C3_reference_resolution exampleCostConfig
      ⟨some "flame", some "heart", "p2"⟩ [] emptyFS).2.2.2 (by decide) (by decide) rfl⟩⟩

/-- C7: static fallback selection: the operation selects the frame at the
requested index when present; when that file is absent it selects the
lexicographically last listed frame, so the output equals the upscaled
content of the lexicographically last available frame; it returns absent
exactly when the directory yields no frames at all. -/
theorem C7_static_fallback_selection (frame_dir output_path : Path)
    (upscale_size frame_index : Nat) (fs : FS) :
    (∀ b, fs.read (frame_dir ++ [frameName frame_index]) = some b →
      create_static_fallback frame_dir output_path upscale_size frame_index fs =
        (fs.writeFile output_path (upscaleNearest upscale_size b), some output_path)) ∧
    (fs.fileExists (frame_dir ++ [frameName frame_index]) = false →
      ∀ m, (fs.globFrames frame_dir).getLast? = some m →
        (∀ x ∈ fs.globFrames frame_dir, nameLe x m) ∧
        ∃ bm, fs.read (frame_dir ++ [m]) = some bm ∧
          create_static_fallback frame_dir output_path upscale_size frame_index fs =
            (fs.writeFile output_path (upscaleNearest upscale_size bm),
             some output_path)) ∧
    ((create_static_fallback frame_dir output_path upscale_size frame_index fs).2 = none ↔
      (fs.fileExists (frame_dir ++ [frameName frame_index]) = false ∧
        fs.globFrames frame_dir = [])) := by
  refine ⟨?_, ?_, ?_⟩
  · intro b hb
    unfold create_static_fallback
    rw [if_pos (by unfold FS.fileExists; rw [hb]; rfl)]
    rw [hb]
    rfl
  · intro habs m hm
    refine ⟨fun x hx => nameLe_getLast_of_mem_glob hm hx, ?_⟩
    have hmem : m ∈ fs.globFrames frame_dir := List.mem_of_mem_getLast? hm
    rcases FS.mem_globFrames.mp hmem with ⟨_, b0, hb0⟩
    have hsome : (fs.read (frame_dir ++ [m])).isSome = true :=
      lookupFile_isSome_of_mem hb0
    rcases Option.isSome_iff_exists.mp hsome with ⟨bm, hbm⟩
    refine ⟨bm, hbm, ?_⟩
    unfold create_static_fallback
    rw [if_neg (by rw [habs]; simp), hm]
    show (fs.writeFile output_path
        (upscaleNearest upscale_size ((fs.read (frame_dir ++ [m])).getD [])),
      some output_path) = _
    rw [hbm]
    rfl
  · constructor
    · intro hnone
      unfold create_static_fallback at hnone
      by_cases hd : fs.fileExists (frame_dir ++ [frameName frame_index]) = true
      · rw [if_pos hd] at hnone
        simp at hnone
      · rw [if_neg hd] at hnone
        refine ⟨by cases hv : fs.fileExists (frame_dir ++ [frameName frame_index]) with
          | true => exact absurd hv hd
          | false => rfl, ?_⟩
        cases hv : (fs.globFrames frame_dir).getLast? with
        | none => exact List.getLast?_eq_none_iff.mp hv
        | some n =>
          rw [hv] at hnone
          simp at hnone
    · rintro ⟨h1, h2⟩
      unfold create_static_fallback
      rw [if_neg (by rw [h1]; simp), h2]
      rfl

theorem C7_static_fallback_selection_witness :
    (((save_frames [⟨"QUJD"⟩, ⟨"REVG"⟩] ["o", "f"] emptyFS).1.fileExists
        (["o", "f"] ++ [frameName 15]) = false) ∧
      ((save_frames [⟨"QUJD"⟩, ⟨"REVG"⟩] ["o", "f"] emptyFS).1.globFrames
        ["o", "f"]).getLast? = some "frame_01.png") ∧
    ((∀ x ∈ (save_frames [⟨"QUJD"⟩, ⟨"REVG"⟩] ["o", "f"] emptyFS).1.globFrames ["o", "f"],
        nameLe x "frame_01.png") ∧
      ∃ bm, (save_frames [⟨"QUJD"⟩, ⟨"REVG"⟩] ["o", "f"] emptyFS).1.read
          (["o", "f"] ++ ["frame_01.png"]) = some bm ∧
        create_static_fallback ["o", "f"] ["o", "s.png"] 512 15
            (save_frames [⟨"QUJD"⟩, ⟨"REVG"⟩] ["o", "f"] emptyFS).1 =
          ((save_frames [⟨"QUJD"⟩, ⟨"REVG"⟩] ["o", "f"] emptyFS).1.writeFile
              ["o", "s.png"] (upscaleNearest 512 bm),
            some ["o", "s.png"])) :=
  ⟨⟨by decide, by decide⟩,
    (C7_static_fallback_selection ["o", "f"] ["o", "s.png"] 512 15
      (save_frames [⟨"QUJD"⟩, ⟨"REVG"⟩] ["o", "f"] emptyFS).1).2.1
      (by decide) "frame_01.png" (by decide)⟩

/-- C2 (amended): frame codec round-trip: for every frame set of size N
persisted at a start offset with offset + N ≤ 100 into a directory with no
existing frame files, the returned path list is in input order with
contiguous indices from the offset, listing the directory yields exactly N
files whose names are exactly the frame names of those indices, and every
such name carries a zero-padded two-digit index. -/
theorem C2_frame_codec_roundtrip (frames : List Frame) (output_dir : Path)
    (offset : Nat) (fs : FS)
    (hg : fs.globFrames output_dir = [])
    (hbound : offset + frames.length ≤ 100) :
    (save_frames_offset frames output_dir offset fs).2 =
      (List.range frames.length).map (fun j => output_dir ++ [frameName (offset + j)]) ∧
    ((save_frames_offset frames output_dir offset fs).1.globFrames output_dir).length =
      frames.length ∧
    (∀ n, n ∈ (save_frames_offset frames output_dir offset fs).1.globFrames output_dir ↔
      ∃ j, j < frames.length ∧ n = frameName (offset + j)) ∧
    (∀ j, j < frames.length → (pad2Chars (offset + j)).length = 2) := by
  have hg2 : (fs.mkdirp output_dir).globFrames output_dir = [] := by
    rw [mkdirp_globFrames]; exact hg
  refine ⟨?_, ?_, ?_, ?_⟩
  · unfold save_frames_offset
    exact saveFramesGo_snd output_dir frames offset _
  · unfold save_frames_offset
    exact saveFramesGo_globFrames_length_of_empty output_dir frames offset _ hg2
  · intro n
    unfold save_frames_offset
    exact mem_saveFramesGo_globFrames_of_empty hg2
  · intro j hj
    exact pad2Chars_length_two (by omega)

theorem C2_frame_codec_roundtrip_witness :
    emptyFS.globFrames ["out", "frames"] = [] ∧ 16 + 2 ≤ 100 ∧
      ((save_frames_offset [⟨"QUJD"⟩, ⟨"REVG"⟩] ["out", "frames"] 16 emptyFS).2 =
        (List.range 2).map (fun j => ["out", "frames"] ++ [frameName (16 + j)]) ∧
      ((save_frames_offset [⟨"QUJD"⟩, ⟨"REVG"⟩] ["out", "frames"] 16
          emptyFS).1.globFrames ["out", "frames"]).length = 2 ∧
      (∀ n, n ∈ (save_frames_offset [⟨"QUJD"⟩, ⟨"REVG"⟩] ["out", "frames"] 16
          emptyFS).1.globFrames ["out", "frames"] ↔
        ∃ j, j < 2 ∧ n = frameName (16 + j)) ∧
      (∀ j, j < 2 → (pad2Chars (16 + j)).length = 2)) :=
  ⟨rfl, by omega,
    C2_frame_codec_roundtrip [⟨"QUJD"⟩, ⟨"REVG"⟩] ["out", "frames"] 16 emptyFS rfl
      (by decide)⟩

/-- C2 counterexample: at start offset 100 with one frame, the produced
file is frame_100.png, whose index is rendered with three digits, so the
claim that for every start offset the written names carry zero-padded
two-digit indices fails (file names and scheme collapse back to plain
decimal above 99). -/
theorem C2_counterexample :
    (save_frames_offset [⟨"QUJD"⟩] ["out", "frames"] 100 emptyFS).2 =
      [["out", "frames", "frame_100.png"]] ∧
    (pad2Chars 100).length = 3 ∧ ¬ (pad2Chars 100).length = 2 := by
  refine ⟨by decide, by decide, by decide⟩

/-- C1: skip rule: an item whose frame directory already holds at least
the completion threshold of frame files for its kind (16 for a single, 32
for a cycle, stepCount×16 for a chain or journey) is skipped: its loop
body returns the state unchanged — zero remote calls issued, filesystem
untouched — and the fold proceeds to the next item. -/
theorem C1_skip_rule (oracle : Oracle) (config : PipelineConfig) (st : RunState) :
    (∀ name entry, st.fs.dirExists (config.singles_dir ++ [name]) = true →
      16 ≤ (st.fs.globFrames (config.singles_dir ++ [name])).length →
      singleItem oracle config st (name, entry) = st) ∧
    (∀ name entry, st.fs.dirExists (config.cycles_dir ++ [name]) = true →
      32 ≤ (st.fs.globFrames (config.cycles_dir ++ [name])).length →
      cycleItem oracle config st (name, entry) = st) ∧
    (∀ name (entry : SequenceEntry),
      st.fs.dirExists (config.chains_dir ++ [name]) = true →
      entry.steps.length * 16 ≤ (st.fs.globFrames (config.chains_dir ++ [name])).length →
      chainItem oracle config st (name, entry) = st) ∧
    (∀ name (entry : SequenceEntry),
      st.fs.dirExists (config.journeys_dir ++ [name]) = true →
      entry.steps.length * 16 ≤
        (st.fs.globFrames (config.journeys_dir ++ [name])).length →
      journeyItem oracle config st (name, entry) = st) := by
  refine ⟨?_, ?_, ?_, ?_⟩
  · intro name entry h1 h2
    unfold singleItem
    rw [if_pos (has_frames_true_of h1 h2)]
  · intro name entry h1 h2
    unfold cycleItem
    rw [if_pos (has_frames_true_of h1 h2)]
  · intro name entry h1 h2
    unfold chainItem
    rw [if_pos (has_frames_true_of h1 h2)]
  · intro name entry h1 h2
    unfold journeyItem
    rw [if_pos (has_frames_true_of h1 h2)]

set_option maxRecDepth 40000 in
theorem C1_skip_rule_witness :
    ((save_frames (List.replicate 16 ⟨"QUJD"⟩)
        (exampleCostConfig.singles_dir ++ ["flame"]) emptyFS).1.dirExists
      (exampleCostConfig.singles_dir ++ ["flame"]) = true) ∧
    (16 ≤ ((save_frames (List.replicate 16 ⟨"QUJD"⟩)
        (exampleCostConfig.singles_dir ++ ["flame"]) emptyFS).1.globFrames
      (exampleCostConfig.singles_dir ++ ["flame"])).length) ∧
    (∀ oracle,
      singleItem oracle exampleCostConfig
        ⟨(save_frames (List.replicate 16 ⟨"QUJD"⟩)
            (exampleCostConfig.singles_dir ++ ["flame"]) emptyFS).1, [], 0⟩
        ("flame", ⟨"transforms into a flame"⟩) =
      ⟨(save_frames (List.replicate 16 ⟨"QUJD"⟩)
          (exampleCostConfig.singles_dir ++ ["flame"]) emptyFS).1, [], 0⟩) :=
  ⟨by decide, by decide,
    fun oracle =>
      (C1_skip_rule oracle exampleCostConfig
        ⟨(save_frames (List.replicate 16 ⟨"QUJD"⟩)
            (exampleCostConfig.singles_dir ++ ["flame"]) emptyFS).1, [], 0⟩).1
        "flame" ⟨"transforms into a flame"⟩ (by decide) (by decide)⟩

/-! ### Cost accumulation infrastructure -/

theorem succeededCost_nil : succeededCost [] = 0 := rfl

theorem succeededCost_append (l₁ l₂ : List CallRecord) :
    succeededCost (l₁ ++ l₂) = succeededCost l₁ + succeededCost l₂ := by
  unfold succeededCost
  rw [List.map_append, List.sum_append]

theorem succeededCost_ok (ref : Path) (prompt : String) (res : GenResult) :
    succeededCost [⟨ref, prompt, .ok res⟩] = res.cost := by
  simp [succeededCost]

theorem succeededCost_error (ref : Path) (prompt : String) (e : String) :
    succeededCost [⟨ref, prompt, .error e⟩] = 0 := by
  simp [succeededCost]

theorem succeededCost_ok_cons (ref : Path) (prompt : String) (res : GenResult)
    (l : List CallRecord) :
    succeededCost (⟨ref, prompt, .ok res⟩ :: l) = res.cost + succeededCost l := by
  simp [succeededCost]

theorem foldl_cost_invariant {α : Type} (f : RunState → α → RunState)
    (h : ∀ st a, ∃ Δ, (f st a).log = st.log ++ Δ ∧
      (f st a).cost = st.cost + succeededCost Δ) :
    ∀ (items : List α) (st : RunState),
      ∃ Δ, (items.foldl f st).log = st.log ++ Δ ∧
        (items.foldl f st).cost = st.cost + succeededCost Δ := by
  intro items
  induction items with
  | nil => intro st; exact ⟨[], by simp, by simp [succeededCost_nil]⟩
  | cons a rest ih =>
    intro st
    rcases h st a with ⟨Δ₁, h1, h2⟩
    rcases ih (f st a) with ⟨Δ₂, h3, h4⟩
    refine ⟨Δ₁ ++ Δ₂, ?_, ?_⟩
    · rw [List.foldl_cons, h3, h1, List.append_assoc]
    · rw [List.foldl_cons, h4, h2, succeededCost_append]
      ring

theorem generate_run_cost {α : Type} (f : RunState → α → RunState)
    (h : ∀ st a, ∃ Δ, (f st a).log = st.log ++ Δ ∧
      (f st a).cost = st.cost + succeededCost Δ)
    (items : List α) (fs : FS) :
    (items.foldl f ⟨fs, [], 0⟩).cost = succeededCost (items.foldl f ⟨fs, [], 0⟩).log := by
  rcases foldl_cost_invariant f h items ⟨fs, [], 0⟩ with ⟨Δ, hl, hc⟩
  rw [hl, hc]
  simp

theorem singleItem_delta (oracle : Oracle) (config : PipelineConfig) (st : RunState)
    (item : String × SingleEntry) :
    ∃ Δ, (singleItem oracle config st item).log = st.log ++ Δ ∧
      (singleItem oracle config st item).cost = st.cost + succeededCost Δ := by
  unfold singleItem
  by_cases hskip : has_frames st.fs (config.singles_dir ++ [item.1]) 16 = true
  · rw [if_pos hskip]
    exact ⟨[], by simp, by simp [succeededCost_nil]⟩
  · rw [if_neg hskip]
    cases hoc : oracle st.log.length with
    | error e =>
      exact ⟨[⟨config.reference, item.2.prompt, .error e⟩], rfl, by
        rw [succeededCost_error]; simp⟩
    | ok res =>
      exact ⟨[⟨config.reference, item.2.prompt, .ok res⟩], rfl, by
        rw [succeededCost_ok]⟩

theorem emoteItem_delta (oracle : Oracle) (config : PipelineConfig) (st : RunState)
    (item : String × EmoteEntry) :
    ∃ Δ, (emoteItem oracle config st item).log = st.log ++ Δ ∧
      (emoteItem oracle config st item).cost = st.cost + succeededCost Δ := by
  unfold emoteItem
  by_cases h1 : st.fs.fileExists (config.singles_dir ++ [item.1, "frame_15.png"]) = false
  · rw [if_pos h1]
    exact ⟨[], by simp, by simp [succeededCost_nil]⟩
  · rw [if_neg h1]
    by_cases h2 : st.fs.fileExists (config.singles_dir ++ [item.1, "frame_16.png"]) = true
    · rw [if_pos h2]
      exact ⟨[], by simp, by simp [succeededCost_nil]⟩
    · rw [if_neg h2]
      cases hoc : oracle st.log.length with
      | error e =>
        exact ⟨[⟨config.singles_dir ++ [item.1, "frame_15.png"], item.2.prompt, .error e⟩],
          rfl, by rw [succeededCost_error]; simp⟩
      | ok res =>
        exact ⟨[⟨config.singles_dir ++ [item.1, "frame_15.png"], item.2.prompt, .ok res⟩],
          rfl, by rw [succeededCost_ok]⟩

theorem runSteps_delta (oracle : Oracle) (config : PipelineConfig) :
    ∀ (steps : List Step) (st : StepState),
      ∃ Δ, (runSteps oracle config steps st).log = st.log ++ Δ ∧
        (runSteps oracle config steps st).cost = st.cost + succeededCost Δ := by
  intro steps
  induction steps with
  | nil =>
    intro st
    exact ⟨[], by simp [runSteps], by simp [runSteps, succeededCost_nil]⟩
  | cons step rest ih =>
    intro st
    cases hoc : oracle st.log.length with
    | error e =>
      refine ⟨[⟨(resolve_step_reference config step st.allFrames st.fs).1, step.prompt,
          .error e⟩], ?_, ?_⟩
      · simp only [runSteps, hoc]
      · simp only [runSteps, hoc]
        rw [succeededCost_error]
        simp
    | ok res =>
      rcases ih ⟨(resolve_step_reference config step st.allFrames st.fs).2,
          st.log ++ [⟨(resolve_step_reference config step st.allFrames st.fs).1,
            step.prompt, .ok res⟩],
          st.cost + res.cost,
          st.allFrames ++ res.frames⟩ with ⟨Δ₂, hl, hc⟩
      refine ⟨⟨(resolve_step_reference config step st.allFrames st.fs).1, step.prompt,
          .ok res⟩ :: Δ₂, ?_, ?_⟩
      · simp only [runSteps, hoc]
        rw [hl]
        simp
      · simp only [runSteps, hoc]
        rw [hc, succeededCost_ok_cons]
        ring

theorem sequenceFinish_log (config : PipelineConfig) (dir : Path) (name : String)
    (st1 : StepState) : (sequenceFinish config dir name st1).log = st1.log := by
  unfold sequenceFinish
  by_cases h : st1.allFrames = []
  · rw [if_pos h]
  · rw [if_neg h]

theorem sequenceFinish_cost (config : PipelineConfig) (dir : Path) (name : String)
    (st1 : StepState) : (sequenceFinish config dir name st1).cost = st1.cost := by
  unfold sequenceFinish
  by_cases h : st1.allFrames = []
  · rw [if_pos h]
  · rw [if_neg h]

theorem chainItem_delta (oracle : Oracle) (config : PipelineConfig) (st : RunState)
    (item : String × SequenceEntry) :
    ∃ Δ, (chainItem oracle config st item).log = st.log ++ Δ ∧
      (chainItem oracle config st item).cost = st.cost + succeededCost Δ := by
  unfold chainItem
  by_cases hskip : has_frames st.fs (config.chains_dir ++ [item.1])
      (item.2.steps.length * 16) = true
  · rw [if_pos hskip]
    exact ⟨[], by simp, by simp [succeededCost_nil]⟩
  · rw [if_neg hskip]
    rcases runSteps_delta oracle config item.2.steps
      ⟨st.fs.mkdirp (config.chains_dir ++ [item.1]), st.log, st.cost, []⟩ with ⟨Δ, hl, hc⟩
    exact ⟨Δ, by rw [sequenceFinish_log, hl], by rw [sequenceFinish_cost, hc]⟩

theorem journeyItem_delta (oracle : Oracle) (config : PipelineConfig) (st : RunState)
    (item : String × SequenceEntry) :
    ∃ Δ, (journeyItem oracle config st item).log = st.log ++ Δ ∧
      (journeyItem oracle config st item).cost = st.cost + succeededCost Δ := by
  unfold journeyItem
  by_cases hskip : has_frames st.fs (config.journeys_dir ++ [item.1])
      (item.2.steps.length * 16) = true
  · rw [if_pos hskip]
    exact ⟨[], by simp, by simp [succeededCost_nil]⟩
  · rw [if_neg hskip]
    rcases runSteps_delta oracle config item.2.steps
      ⟨st.fs.mkdirp (config.journeys_dir ++ [item.1]), st.log, st.cost, []⟩ with ⟨Δ, hl, hc⟩
    exact ⟨Δ, by rw [sequenceFinish_log, hl], by rw [sequenceFinish_cost, hc]⟩

theorem cycleReverse_delta (oracle : Oracle) (config : PipelineConfig) (st : RunState)
    (cycle_name : String) (entry : CycleEntry) (forward_frames : List String) :
    ∃ Δ, (cycleReverse oracle config st cycle_name entry forward_frames).log =
        st.log ++ Δ ∧
      (cycleReverse oracle config st cycle_name entry forward_frames).cost =
        st.cost + succeededCost Δ := by
  unfold cycleReverse
  cases hlast : forward_frames.getLast? with
  | none => exact ⟨[], by simp, by simp [succeededCost_nil]⟩
  | some lastName =>
    cases hoc : oracle st.log.length with
    | error e =>
      exact ⟨[⟨config.singles_dir ++ [entry.shape, lastName], entry.reversePrompt,
        .error e⟩], rfl, by rw [succeededCost_error]; simp⟩
    | ok res =>
      exact ⟨[⟨config.singles_dir ++ [entry.shape, lastName], entry.reversePrompt,
        .ok res⟩], rfl, by rw [succeededCost_ok]⟩

theorem cycleItem_delta (oracle : Oracle) (config : PipelineConfig) (st : RunState)
    (item : String × CycleEntry) :
    ∃ Δ, (cycleItem oracle config st item).log = st.log ++ Δ ∧
      (cycleItem oracle config st item).cost = st.cost + succeededCost Δ := by
  unfold cycleItem
  by_cases hskip : has_frames st.fs (config.cycles_dir ++ [item.1]) 32 = true
  · rw [if_pos hskip]
    exact ⟨[], by simp, by simp [succeededCost_nil]⟩
  · rw [if_neg hskip]
    by_cases hfwd : (if st.fs.dirExists (config.singles_dir ++ [item.2.shape]) then
        st.fs.globFrames (config.singles_dir ++ [item.2.shape]) else []) = []
    · rw [if_pos hfwd]
      cases hoc : oracle st.log.length with
      | error e =>
        exact ⟨[⟨config.reference, item.2.forwardPrompt, .error e⟩], rfl, by
          rw [succeededCost_error]; simp⟩
      | ok res =>
        rcases cycleReverse_delta oracle config
          ⟨(save_frames res.frames (config.singles_dir ++ [item.2.shape]) st.fs).1,
            st.log ++ [⟨config.reference, item.2.forwardPrompt, .ok res⟩],
            st.cost + res.cost⟩
          item.1 item.2
          ((save_frames res.frames
            (config.singles_dir ++ [item.2.shape]) st.fs).1.globFrames
            (config.singles_dir ++ [item.2.shape])) with ⟨Δ₂, hl, hc⟩
        refine ⟨⟨config.reference, item.2.forwardPrompt, .ok res⟩ :: Δ₂, ?_, ?_⟩
        · rw [hl]
          simp
        · rw [hc, succeededCost_ok_cons]
          ring
    · rw [if_neg hfwd]
      exact cycleReverse_delta oracle config st item.1 item.2 _

/-- C5: cost accumulation: for every batch run, the total cost returned by
each of the five generators equals the sum of the cost figures of exactly
the remote calls that succeeded during that run; a failed call contributes
exactly 0 and does not abort the batch — the singles loop body on a failed
call returns the state with only the failed call logged, so the fold
continues with the next independent item. -/
theorem C5_cost_accumulation :
    (∀ (oracle : Oracle) (config : PipelineConfig) (targets : Option (List String))
        (fs : FS),
      (generate_singles oracle config targets fs).cost =
        succeededCost (generate_singles oracle config targets fs).log) ∧
    (∀ (oracle : Oracle) (config : PipelineConfig) (targets : Option (List String))
        (fs : FS),
      (generate_emotes oracle config targets fs).cost =
        succeededCost (generate_emotes oracle config targets fs).log) ∧
    (∀ (oracle : Oracle) (config : PipelineConfig) (fs : FS),
      (generate_chains oracle config fs).cost =
        succeededCost (generate_chains oracle config fs).log) ∧
    (∀ (oracle : Oracle) (config : PipelineConfig) (targets : Option (List String))
        (fs : FS),
      (generate_journeys oracle config targets fs).cost =
        succeededCost (generate_journeys oracle config targets fs).log) ∧
    (∀ (oracle : Oracle) (config : PipelineConfig) (fs : FS),
      (generate_cycles oracle config fs).cost =
        succeededCost (generate_cycles oracle config fs).log) ∧
    (∀ (oracle : Oracle) (config : PipelineConfig) (st : RunState) (name : String)
        (entry : SingleEntry) (e : String),
      has_frames st.fs (config.singles_dir ++ [name]) 16 = false →
      oracle st.log.length = Except.error e →
      singleItem oracle config st (name, entry) =
        { st with log := st.log ++ [⟨config.reference, entry.prompt, Except.error e⟩] }) := by
  refine ⟨?_, ?_, ?_, ?_, ?_, ?_⟩
  · intro oracle config targets fs
    exact generate_run_cost _ (singleItem_delta oracle config) _ fs
  · intro oracle config targets fs
    exact generate_run_cost _ (emoteItem_delta oracle config) _ fs
  · intro oracle config fs
    exact generate_run_cost _ (chainItem_delta oracle config) _ fs
  · intro oracle config targets fs
    exact generate_run_cost _ (journeyItem_delta oracle config) _ fs
  · intro oracle config fs
    exact generate_run_cost _ (cycleItem_delta oracle config) _ fs
  · intro oracle config st name entry e hskip hoc
    unfold singleItem
    have hskip2 : has_frames st.fs (config.singles_dir ++ [(name, entry).1]) 16 = false :=
      hskip
    rw [if_neg (by rw [hskip2]; simp)]
    rw [hoc]

/-- Oracle used by witnesses: call 0 succeeds with one frame at cost 1,
call 1 fails, further calls succeed with an empty result. -/
def witnessOracle : Oracle := fun i =>
  if i = 0 then .ok ⟨[⟨"QUJD"⟩], 1⟩
  else if i = 1 then .error "remote call failed"
  else .ok ⟨[], 0⟩

theorem C5_cost_accumulation_witness :
    (generate_singles witnessOracle exampleCostConfig none emptyFS).cost =
      succeededCost (generate_singles witnessOracle exampleCostConfig none emptyFS).log ∧
    (has_frames emptyFS (exampleCostConfig.singles_dir ++ ["star"]) 16 = false ∧
      witnessOracle 1 = Except.error "remote call failed" ∧
      singleItem witnessOracle exampleCostConfig
        ⟨emptyFS, [⟨exampleCostConfig.reference, "p0", Except.ok ⟨[⟨"QUJD"⟩], 1⟩⟩], 1⟩
        ("star", ⟨"transforms into a star"⟩) =
        ⟨emptyFS, [⟨exampleCostConfig.reference, "p0", Except.ok ⟨[⟨"QUJD"⟩], 1⟩⟩] ++
          [⟨exampleCostConfig.reference, "transforms into a star",
            Except.error "remote call failed"⟩], 1⟩) :=
  ⟨C5_cost_accumulation.1 witnessOracle exampleCostConfig none emptyFS,
   by decide,
   rfl,
   C5_cost_accumulation.2.2.2.2.2 witnessOracle exampleCostConfig
     ⟨emptyFS, [⟨exampleCostConfig.reference, "p0", Except.ok ⟨[⟨"QUJD"⟩], 1⟩⟩], 1⟩
     "star" ⟨"transforms into a star"⟩ "remote call failed" (by decide) rfl⟩

/-! ### Sequence failure infrastructure (chains and journeys) -/

theorem resolve_fs_read (config : PipelineConfig) (step : Step)
    (previous_frames : List Frame) (fs : FS) (p : Path) (hp : p ≠ tmpRefPath) :
    (resolve_step_reference config step previous_frames fs).2.read p = fs.read p := by
  simp only [resolve_step_reference]
  by_cases h : (step.fromShape.getD "") = "" ∨ (step.fromShape.getD "") = "liquid" ∨
      (step.fromShape.getD "") = "reference" ∨ (step.fromShape.getD "") = "base"
  · rw [if_pos h]
  · rw [if_neg h]
    by_cases h15 : fs.fileExists
        (config.singles_dir ++ [step.fromShape.getD "", "frame_15.png"]) = true
    · rw [if_pos h15]
    · rw [if_neg h15]
      cases hl : previous_frames.getLast? with
      | none => rfl
      | some f => exact FS.read_writeFile_ne fs _ hp

theorem resolve_snd_nil_prev (config : PipelineConfig) (step : Step) (fs : FS) :
    (resolve_step_reference config step [] fs).2 = fs := by
  simp only [resolve_step_reference]
  by_cases h : (step.fromShape.getD "") = "" ∨ (step.fromShape.getD "") = "liquid" ∨
      (step.fromShape.getD "") = "reference" ∨ (step.fromShape.getD "") = "base"
  · rw [if_pos h]
  · rw [if_neg h]
    by_cases h15 : fs.fileExists
        (config.singles_dir ++ [step.fromShape.getD "", "frame_15.png"]) = true
    · rw [if_pos h15]
    · rw [if_neg h15]
      rfl

/-- Concatenated frames of the first k (successful) step results. -/
def stepFrames (res : Nat → GenResult) (k : Nat) : List Frame :=
  ((List.range k).map (fun i => (res i).frames)).flatten

/-- Summed cost of the first k (successful) step results. -/
def stepCostSum (res : Nat → GenResult) (k : Nat) : ℚ :=
  ((List.range k).map (fun i => (res i).cost)).sum

theorem runSteps_spec (oracle : Oracle) (config : PipelineConfig) :
    ∀ (steps : List Step) (st : StepState) (k : Nat) (res : Nat → GenResult) (e : String),
      k < steps.length →
      (∀ i, i < k → oracle (st.log.length + i) = .ok (res i)) →
      oracle (st.log.length + k) = .error e →
      (runSteps oracle config steps st).log.length = st.log.length + k + 1 ∧
      (runSteps oracle config steps st).cost = st.cost + stepCostSum res k ∧
      (runSteps oracle config steps st).allFrames = st.allFrames ++ stepFrames res k ∧
      (∀ p, p ≠ tmpRefPath →
        (runSteps oracle config steps st).fs.read p = st.fs.read p) ∧
      (st.allFrames = [] → stepFrames res k = [] →
        (runSteps oracle config steps st).fs = st.fs) := by
  intro steps
  induction steps with
  | nil =>
    intro st k res e hk
    simp at hk
  | cons step rest ih =>
    intro st k res e hk hok herr
    cases k with
    | zero =>
      have h0 : oracle st.log.length = .error e := by
        have := herr
        rwa [Nat.add_zero] at this
      simp only [runSteps, h0]
      refine ⟨by simp, ?_, by simp [stepFrames], ?_, ?_⟩
      · simp [stepCostSum]
      · intro p hp
        exact resolve_fs_read config step st.allFrames st.fs p hp
      · intro hemp _
        show (resolve_step_reference config step st.allFrames st.fs).2 = st.fs
        rw [hemp]
        exact resolve_snd_nil_prev config step st.fs
    | succ k2 =>
      have h0 : oracle st.log.length = .ok (res 0) := by
        have := hok 0 (by omega)
        rwa [Nat.add_zero] at this
      have hk2 : k2 < rest.length := by
        simp only [List.length_cons] at hk
        omega
      have hok2 : ∀ i, i < k2 →
          oracle ((st.log ++ [(⟨(resolve_step_reference config step st.allFrames st.fs).1,
            step.prompt, .ok (res 0)⟩ : CallRecord)]).length + i) = .ok (res (i + 1)) := by
        intro i hi
        rw [List.length_append, List.length_singleton]
        rw [show st.log.length + 1 + i = st.log.length + (i + 1) from by omega]
        exact hok (i + 1) (by omega)
      have herr2 : oracle ((st.log ++
          [(⟨(resolve_step_reference config step st.allFrames st.fs).1,
            step.prompt, .ok (res 0)⟩ : CallRecord)]).length + k2) = .error e := by
        rw [List.length_append, List.length_singleton]
        rw [show st.log.length + 1 + k2 = st.log.length + (k2 + 1) from by omega]
        exact herr
      rcases ih ⟨(resolve_step_reference config step st.allFrames st.fs).2,
          st.log ++ [⟨(resolve_step_reference config step st.allFrames st.fs).1,
            step.prompt, .ok (res 0)⟩],
          st.cost + (res 0).cost,
          st.allFrames ++ (res 0).frames⟩ k2 (fun i => res (i + 1)) e hk2 hok2 herr2
        with ⟨hlog2, hcost2, hfr2, hread2, hnil2⟩
      simp only [runSteps, h0]
      refine ⟨?_, ?_, ?_, ?_, ?_⟩
      · rw [hlog2]
        simp only [List.length_append, List.length_singleton]
        omega
      · rw [hcost2]
        unfold stepCostSum
        rw [List.range_succ_eq_map]
        simp only [List.map_cons, List.sum_cons, List.map_map, Function.comp_def,
          Nat.succ_eq_add_one]
        ring
      · rw [hfr2]
        unfold stepFrames
        rw [List.range_succ_eq_map]
        simp only [List.map_cons, List.flatten_cons, List.map_map, Function.comp_def,
          Nat.succ_eq_add_one, List.append_assoc]
      · intro p hp
        rw [hread2 p hp]
        exact resolve_fs_read config step st.allFrames st.fs p hp
      · intro hemp hflat
        unfold stepFrames at hflat
        rw [List.range_succ_eq_map] at hflat
        simp only [List.map_cons, List.flatten_cons, List.map_map, Function.comp_def,
          Nat.succ_eq_add_one, List.append_eq_nil] at hflat
        have h00 : (res 0).frames = [] := hflat.1
        have hrest : stepFrames (fun i => res (i + 1)) k2 = [] := by
          unfold stepFrames
          exact hflat.2
        have hfs2 := hnil2 (by rw [hemp, h00]; rfl) hrest
        rw [hfs2]
        show (resolve_step_reference config step st.allFrames st.fs).2 = st.fs
        rw [hemp]
        exact resolve_snd_nil_prev config step st.fs

theorem ne_gif_path {dir : Path} (x y : String) (h : dir ≠ []) :
    dir ++ [x] ≠ dir.dropLast ++ [y] := by
  intro hc
  have hlen := congrArg List.length hc
  simp only [List.length_append, List.length_dropLast, List.length_singleton] at hlen
  have h0 : dir.length ≠ 0 := fun hz => h (List.length_eq_zero.mp hz)
  omega

theorem ne_of_length_ne {p q : Path} (h : p.length ≠ q.length) : p ≠ q :=
  fun hc => h (congrArg List.length hc)

theorem sequence_item_core (oracle : Oracle) (config : PipelineConfig) (st : RunState)
    (dir : Path) (name : String) (steps : List Step) (k : Nat) (res : Nat → GenResult)
    (e : String)
    (hlen : dir.length = config.outputDir.length + 2)
    (hk : k < steps.length)
    (hok : ∀ i, i < k → oracle (st.log.length + i) = .ok (res i))
    (herr : oracle (st.log.length + k) = .error e) :
    (sequenceFinish config dir name
        (runSteps oracle config steps ⟨st.fs.mkdirp dir, st.log, st.cost, []⟩)).log.length =
      st.log.length + k + 1 ∧
    (sequenceFinish config dir name
        (runSteps oracle config steps ⟨st.fs.mkdirp dir, st.log, st.cost, []⟩)).cost =
      st.cost + stepCostSum res k ∧
    (∀ j, (hj : j < (stepFrames res k).length) →
      (sequenceFinish config dir name
          (runSteps oracle config steps ⟨st.fs.mkdirp dir, st.log, st.cost, []⟩)).fs.read
          (dir ++ [frameName j]) =
        some (b64decode ((stepFrames res k).get ⟨j, hj⟩).base64)) ∧
    (stepFrames res k = [] →
      (sequenceFinish config dir name
          (runSteps oracle config steps ⟨st.fs.mkdirp dir, st.log, st.cost, []⟩)).fs.files =
        st.fs.files) := by
  have hdir_ne : dir ≠ [] := by
    intro hz
    rw [hz] at hlen
    simp at hlen
  rcases runSteps_spec oracle config steps ⟨st.fs.mkdirp dir, st.log, st.cost, []⟩ k res e
    hk hok herr with ⟨hlog, hcost, hfr, hread, hnil⟩
  have hA : (runSteps oracle config steps
      ⟨st.fs.mkdirp dir, st.log, st.cost, []⟩).allFrames = stepFrames res k := by
    rw [hfr]
    rfl
  by_cases hF : stepFrames res k = []
  · have hAnil : (runSteps oracle config steps
        ⟨st.fs.mkdirp dir, st.log, st.cost, []⟩).allFrames = [] := by rw [hA, hF]
    have hfs := hnil rfl hF
    unfold sequenceFinish
    rw [if_pos hAnil]
    refine ⟨hlog, hcost, ?_, ?_⟩
    · intro j hj
      rw [hF] at hj
      simp at hj
    · intro _
      rw [hfs]
      exact FS.files_mkdirp st.fs dir
  · have hAne : ¬ (runSteps oracle config steps
        ⟨st.fs.mkdirp dir, st.log, st.cost, []⟩).allFrames = [] := by
      rw [hA]
      exact hF
    unfold sequenceFinish
    rw [if_neg hAne]
    refine ⟨hlog, hcost, ?_, fun hz => absurd hz hF⟩
    intro j hj
    rw [assemble_animation_read config dir name _ _
      (ne_gif_path _ _ hdir_ne)
      (ne_of_length_ne (by
        simp only [PipelineConfig.static_dir, List.length_append, List.length_singleton]
        omega))]
    rw [hA]
    unfold save_frames
    have := saveFramesGo_read_saved dir (stepFrames res k) 0
      ((runSteps oracle config steps
        ⟨st.fs.mkdirp dir, st.log, st.cost, []⟩).fs.mkdirp dir) j hj
    rw [Nat.zero_add] at this
    exact this

/-- C4: chain and journey partial-failure atomicity: when step k of a
sequence fails after k successful steps, exactly k+1 remote calls were
issued for it (no later step is attempted), the accumulated cost covers
only the completed steps, the frames accumulated before the failure are
persisted into the sequence directory, and nothing is persisted when no
step completed. -/
theorem C4_partial_failure_atomicity (oracle : Oracle) (config : PipelineConfig)
    (st : RunState) (name : String) (entry : SequenceEntry) (k : Nat)
    (res : Nat → GenResult) (e : String) :
    (has_frames st.fs (config.chains_dir ++ [name]) (entry.steps.length * 16) = false →
      k < entry.steps.length →
      (∀ i, i < k → oracle (st.log.length + i) = .ok (res i)) →
      oracle (st.log.length + k) = .error e →
      (chainItem oracle config st (name, entry)).log.length = st.log.length + k + 1 ∧
      (chainItem oracle config st (name, entry)).cost = st.cost + stepCostSum res k ∧
      (∀ j, (hj : j < (stepFrames res k).length) →
        (chainItem oracle config st (name, entry)).fs.read
            ((config.chains_dir ++ [name]) ++ [frameName j]) =
          some (b64decode ((stepFrames res k).get ⟨j, hj⟩).base64)) ∧
      (stepFrames res k = [] →
        (chainItem oracle config st (name, entry)).fs.files = st.fs.files)) ∧
    (has_frames st.fs (config.journeys_dir ++ [name]) (entry.steps.length * 16) = false →
      k < entry.steps.length →
      (∀ i, i < k → oracle (st.log.length + i) = .ok (res i)) →
      oracle (st.log.length + k) = .error e →
      (journeyItem oracle config st (name, entry)).log.length = st.log.length + k + 1 ∧
      (journeyItem oracle config st (name, entry)).cost = st.cost + stepCostSum res k ∧
      (∀ j, (hj : j < (stepFrames res k).length) →
        (journeyItem oracle config st (name, entry)).fs.read
            ((config.journeys_dir ++ [name]) ++ [frameName j]) =
          some (b64decode ((stepFrames res k).get ⟨j, hj⟩).base64)) ∧
      (stepFrames res k = [] →
        (journeyItem oracle config st (name, entry)).fs.files = st.fs.files)) := by
  constructor
  · intro hskip hk hok herr
    unfold chainItem
    have hskip2 : has_frames st.fs (config.chains_dir ++ [(name, entry).1])
        ((name, entry).2.steps.length * 16) = false := hskip
    rw [if_neg (by rw [hskip2]; simp)]
    exact sequence_item_core oracle config st (config.chains_dir ++ [name]) name
      entry.steps k res e
      (by simp [PipelineConfig.chains_dir]) hk hok herr
  · intro hskip hk hok herr
    unfold journeyItem
    have hskip2 : has_frames st.fs (config.journeys_dir ++ [(name, entry).1])
        ((name, entry).2.steps.length * 16) = false := hskip
    rw [if_neg (by rw [hskip2]; simp)]
    exact sequence_item_core oracle config st (config.journeys_dir ++ [name]) name
      entry.steps k res e
      (by simp [PipelineConfig.journeys_dir]) hk hok herr

/-- Chain entry used by the C4 witness: the 2-step chain of
exampleCostConfig. -/
def exampleChainEntry : SequenceEntry :=
  ⟨some "Fire to Love",
    [⟨some "reference", some "flame", "becomes a flame"⟩,
     ⟨some "flame", some "heart", "becomes a heart"⟩]⟩

theorem C4_partial_failure_atomicity_witness :
    has_frames emptyFS (exampleCostConfig.chains_dir ++ ["flame_to_heart"])
      (exampleChainEntry.steps.length * 16) = false ∧
    witnessOracle (0 + 1) = Except.error "remote call failed" ∧
    (chainItem witnessOracle exampleCostConfig ⟨emptyFS, [], 0⟩
        ("flame_to_heart", exampleChainEntry)).log.length = 2 ∧
    (chainItem witnessOracle exampleCostConfig ⟨emptyFS, [], 0⟩
        ("flame_to_heart", exampleChainEntry)).cost =
      0 + stepCostSum (fun _ => ⟨[⟨"QUJD"⟩], 1⟩) 1 ∧
    (chainItem witnessOracle exampleCostConfig ⟨emptyFS, [], 0⟩
        ("flame_to_heart", exampleChainEntry)).fs.read
        ((exampleCostConfig.chains_dir ++ ["flame_to_heart"]) ++ [frameName 0]) =
      some (b64decode "QUJD") := by
  have happ := (C4_partial_failure_atomicity witnessOracle exampleCostConfig
    ⟨emptyFS, [], 0⟩ "flame_to_heart" exampleChainEntry 1
    (fun _ => ⟨[⟨"QUJD"⟩], 1⟩) "remote call failed").1
    (by decide) (by decide)
    (fun i hi => by
      have hz : i = 0 := by omega
      rw [hz]
      rfl)
    rfl
  exact ⟨by decide, rfl, happ.1, happ.2.1, happ.2.2.1 0 (by decide)⟩

/-! ### Emote infrastructure -/

theorem path_pair_assoc (a : Path) (x y : String) : a ++ [x, y] = (a ++ [x]) ++ [y] := by
  simp

theorem kind_path_ne (out : Path) (a b x y : String) (hab : a ≠ b) :
    (out ++ [a]) ++ [x] ≠ (out ++ [b]) ++ [y] := by
  intro hc
  rw [List.append_assoc, List.append_assoc] at hc
  have h2 := List.append_cancel_left hc
  simp only [List.cons_append, List.nil_append, List.cons.injEq] at h2
  exact hab h2.1

theorem kind_frame_path_ne (out : Path) (a b n1 n2 x y : String) (hab : a ≠ b) :
    ((out ++ [a]) ++ [n1]) ++ [x] ≠ ((out ++ [b]) ++ [n2]) ++ [y] := by
  intro hc
  rw [List.append_assoc, List.append_assoc, List.append_assoc, List.append_assoc] at hc
  have h2 := List.append_cancel_left hc
  simp only [List.cons_append, List.nil_append, List.cons.injEq] at h2
  exact hab h2.1

theorem mem_globFrames_of_fileExists {fs : FS} {d : Path} {n : String}
    (h : fs.fileExists (d ++ [n]) = true) (hp : matchesFramePattern n = true) :
    n ∈ fs.globFrames d := by
  rw [FS.mem_globFrames]
  refine ⟨hp, ?_⟩
  unfold FS.fileExists FS.read at h
  cases hv : lookupFile fs.files (d ++ [n]) with
  | none => rw [hv] at h; simp at h
  | some b => exact ⟨b, lookupFile_mem_of_some hv⟩

theorem frames_to_gif_writes (frame_dir output_path : Path) (us dm : Nat) (fs : FS)
    (h : ¬ fs.globFrames frame_dir = []) :
    (frames_to_gif frame_dir output_path us dm fs).1.fileExists output_path = true := by
  unfold frames_to_gif
  rw [if_neg h]
  unfold FS.fileExists
  rw [FS.read_writeFile_self]
  rfl

theorem assemble_animation_gif_exists (config : PipelineConfig) (frame_dir : Path)
    (name : String) (fs : FS)
    (hglob : ¬ fs.globFrames frame_dir = [])
    (hne : frame_dir.dropLast ++ [name ++ ".gif"] ≠
      config.static_dir ++ [name ++ ".png"]) :
    (assemble_animation config frame_dir name fs).fileExists
      (frame_dir.dropLast ++ [name ++ ".gif"]) = true := by
  unfold assemble_animation
  unfold FS.fileExists
  rw [create_static_fallback_fst_read _ _ _ _ _ _ hne]
  exact frames_to_gif_writes frame_dir _ config.upscaleSize config.frameDurationMs fs hglob

theorem saveFramesGo_fileExists_other (dir : Path) (frames : List Frame) (i : Nat)
    (fs : FS) (p : Path)
    (hp : ∀ j, j < frames.length → p ≠ dir ++ [frameName (i + j)]) :
    (saveFramesGo dir frames i fs).1.fileExists p = fs.fileExists p := by
  unfold FS.fileExists
  rw [saveFramesGo_read_other dir frames i fs p hp]

/-- C6 (amended): emote dependency rule: an emote whose single's frame-15
file is absent is skipped outright (zero remote calls, zero cost, state
unchanged); when frame-15 is present and frame-16 is absent (the emote not
already generated), exactly one remote call is issued with frame-15 as the
reference, the returned frames are persisted with start index 16 into that
same single's directory, the cost is added, and the combined animation is
reassembled (the GIF exists next to the frame directory). -/
theorem C6_emote_dependency (oracle : Oracle) (config : PipelineConfig) (st : RunState)
    (name : String) (entry : EmoteEntry) :
    (st.fs.fileExists (config.singles_dir ++ [name, "frame_15.png"]) = false →
      emoteItem oracle config st (name, entry) = st) ∧
    (∀ res, st.fs.fileExists (config.singles_dir ++ [name, "frame_15.png"]) = true →
      st.fs.fileExists (config.singles_dir ++ [name, "frame_16.png"]) = false →
      oracle st.log.length = .ok res →
      (emoteItem oracle config st (name, entry)).log =
        st.log ++
          [⟨config.singles_dir ++ [name, "frame_15.png"], entry.prompt, .ok res⟩] ∧
      (emoteItem oracle config st (name, entry)).cost = st.cost + res.cost ∧
      (∀ j, (hj : j < res.frames.length) →
        (emoteItem oracle config st (name, entry)).fs.read
            ((config.singles_dir ++ [name]) ++ [frameName (16 + j)]) =
          some (b64decode (res.frames.get ⟨j, hj⟩).base64)) ∧
      (emoteItem oracle config st (name, entry)).fs.fileExists
        ((config.singles_dir ++ [name]).dropLast ++ [name ++ ".gif"]) = true) := by
  constructor
  · intro h15
    unfold emoteItem
    have h15x : st.fs.fileExists
        (config.singles_dir ++ [(name, entry).1, "frame_15.png"]) = false := h15
    rw [if_pos h15x]
  · intro res h15 h16 hoc
    have hdir_ne : (config.singles_dir ++ [name] : Path) ≠ [] := by
      intro hz
      have := congrArg List.length hz
      simp at this
    have hstep : emoteItem oracle config st (name, entry) =
        { fs := assemble_animation config (config.singles_dir ++ [name]) name
            (save_frames_offset res.frames (config.singles_dir ++ [name]) 16 st.fs).1,
          log := st.log ++
            [⟨config.singles_dir ++ [name, "frame_15.png"], entry.prompt, .ok res⟩],
          cost := st.cost + res.cost } := by
      unfold emoteItem
      have h15x : ¬ st.fs.fileExists
          (config.singles_dir ++ [(name, entry).1, "frame_15.png"]) = false := by
        rw [h15]
        simp
      have h16x : ¬ st.fs.fileExists
          (config.singles_dir ++ [(name, entry).1, "frame_16.png"]) = true := by
        rw [h16]
        simp
      rw [if_neg h15x, if_neg h16x, hoc]
    rw [hstep]
    have h15e : st.fs.fileExists
        ((config.singles_dir ++ [name]) ++ ["frame_15.png"]) = true := by
      rw [← path_pair_assoc]
      exact h15
    have hne15 : ∀ j, j < res.frames.length →
        (config.singles_dir ++ [name]) ++ ["frame_15.png"] ≠
          (config.singles_dir ++ [name]) ++ [frameName (16 + j)] := by
      intro j _ hc
      have h2 := List.append_cancel_left hc
      simp only [List.cons.injEq, and_true] at h2
      have h3 : frameName 15 = frameName (16 + j) := by rw [frameName_15]; exact h2
      have := frameName_inj _ _ h3
      omega
    have h15f : (save_frames_offset res.frames (config.singles_dir ++ [name])
        16 st.fs).1.fileExists ((config.singles_dir ++ [name]) ++ ["frame_15.png"]) =
        true := by
      unfold save_frames_offset
      rw [saveFramesGo_fileExists_other _ _ _ _ _ hne15]
      unfold FS.fileExists
      rw [FS.read_mkdirp]
      exact h15e
    have hglobne : ¬ (save_frames_offset res.frames (config.singles_dir ++ [name])
        16 st.fs).1.globFrames (config.singles_dir ++ [name]) = [] := by
      intro hz
      have hmem := mem_globFrames_of_fileExists h15f (by decide)
      rw [hz] at hmem
      simp at hmem
    have hgifne : (config.singles_dir ++ [name]).dropLast ++ [name ++ ".gif"] ≠
        config.static_dir ++ [name ++ ".png"] := by
      rw [List.dropLast_concat]
      simp only [PipelineConfig.singles_dir, PipelineConfig.static_dir]
      exact kind_path_ne config.outputDir "singles" "static" _ _ (by decide)
    refine ⟨rfl, rfl, ?_, ?_⟩
    · intro j hj
      rw [assemble_animation_read config (config.singles_dir ++ [name]) name _ _
        (ne_gif_path _ _ hdir_ne)
        (ne_of_length_ne (by
          simp only [PipelineConfig.singles_dir, PipelineConfig.static_dir,
            List.length_append, List.length_singleton]
          omega))]
      unfold save_frames_offset
      exact saveFramesGo_read_saved (config.singles_dir ++ [name]) res.frames 16
        (st.fs.mkdirp (config.singles_dir ++ [name])) j hj
    · exact assemble_animation_gif_exists config (config.singles_dir ++ [name]) name
        _ hglobne hgifne

/-- Filesystem for the C6 counterexample: the flame single has both its
frame_15.png and frame_16.png files on disk (the emote was already
generated). -/
def emoteDoneFS : FS :=
  (emptyFS.writeFile
      (exampleCostConfig.singles_dir ++ ["flame", "frame_15.png"]) [1]).writeFile
    (exampleCostConfig.singles_dir ++ ["flame", "frame_16.png"]) [2]

/-- C6 counterexample: frame-15 is present, yet the emote loop body issues
zero remote calls (the state is returned unchanged), because frame-16
already exists — refuting the claim that whenever frame-15 is present one
remote call is made and frames are persisted. -/
theorem C6_counterexample :
    emoteDoneFS.fileExists
      (exampleCostConfig.singles_dir ++ ["flame", "frame_15.png"]) = true ∧
    emoteItem witnessOracle exampleCostConfig ⟨emoteDoneFS, [], 0⟩
      ("flame", ⟨"flame sways gently"⟩) = ⟨emoteDoneFS, [], 0⟩ ∧
    ¬ (emoteItem witnessOracle exampleCostConfig ⟨emoteDoneFS, [], 0⟩
        ("flame", ⟨"flame sways gently"⟩)).log.length = 1 :=
  ⟨by decide, rfl, by decide⟩

theorem C6_emote_dependency_witness :
    ((emptyFS.fileExists
        (exampleCostConfig.singles_dir ++ ["flame", "frame_15.png"]) = false) ∧
      emoteItem witnessOracle exampleCostConfig ⟨emptyFS, [], 0⟩
        ("flame", ⟨"flame sways gently"⟩) = ⟨emptyFS, [], 0⟩) ∧
    (emoteItem witnessOracle exampleCostConfig
        ⟨(emptyFS.writeFile
            (exampleCostConfig.singles_dir ++ ["flame", "frame_15.png"]) [1]), [], 0⟩
        ("flame", ⟨"flame sways gently"⟩)).log =
      [] ++ [⟨exampleCostConfig.singles_dir ++ ["flame", "frame_15.png"],
        "flame sways gently", Except.ok ⟨[⟨"QUJD"⟩], 1⟩⟩] :=
  ⟨⟨by decide,
    (C6_emote_dependency witnessOracle exampleCostConfig ⟨emptyFS, [], 0⟩
      "flame" ⟨"flame sways gently"⟩).1 (by decide)⟩,
   ((C6_emote_dependency witnessOracle exampleCostConfig
      ⟨(emptyFS.writeFile
          (exampleCostConfig.singles_dir ++ ["flame", "frame_15.png"]) [1]), [], 0⟩
      "flame" ⟨"flame sways gently"⟩).2 ⟨[⟨"QUJD"⟩], 1⟩
      (by decide) (by decide) rfl).1⟩

/-! ### Cycle infrastructure -/

theorem saveFramesGo_globFrames_other (dir : Path) (frames : List Frame) (i : Nat)
    (fs : FS) (d : Path) (hd : d ≠ dir) :
    (saveFramesGo dir frames i fs).1.globFrames d = fs.globFrames d := by
  unfold FS.globFrames
  rw [saveFramesGo_namesIn_other dir frames i fs d hd]

theorem save_frames_def (frames : List Frame) (dir : Path) (fs : FS) :
    save_frames frames dir fs = saveFramesGo dir frames 0 (fs.mkdirp dir) := rfl

/-- C10: implicit cycle side effect: when a cycle's forward single does
not yet exist (its singles directory lists no frames), the freshly
generated forward frames are persisted into the singles directory for that
shape, a later singles run finds at least 16 frames there and skips the
shape, and the combined forward-plus-reverse frames are written separately
under the cycles directory. -/
theorem C10_cycle_forward_persisted (oracle : Oracle) (config : PipelineConfig)
    (st : RunState) (cycle_name : String) (entry : CycleEntry)
    (fres rres : GenResult)
    (hskip : has_frames st.fs (config.cycles_dir ++ [cycle_name]) 32 = false)
    (hfwd : st.fs.globFrames (config.singles_dir ++ [entry.shape]) = [])
    (hf : oracle st.log.length = .ok fres)
    (hr : oracle (st.log.length + 1) = .ok rres)
    (h16 : 16 ≤ fres.frames.length) :
    (∀ j, (hj : j < fres.frames.length) →
      (cycleItem oracle config st (cycle_name, entry)).fs.read
          ((config.singles_dir ++ [entry.shape]) ++ [frameName j]) =
        some (b64decode (fres.frames.get ⟨j, hj⟩).base64)) ∧
    has_frames (cycleItem oracle config st (cycle_name, entry)).fs
      (config.singles_dir ++ [entry.shape]) 16 = true ∧
    (∀ (oracle2 : Oracle) (sentry : SingleEntry) (l : List CallRecord) (c : ℚ),
      singleItem oracle2 config
        ⟨(cycleItem oracle config st (cycle_name, entry)).fs, l, c⟩
        (entry.shape, sentry) =
      ⟨(cycleItem oracle config st (cycle_name, entry)).fs, l, c⟩) ∧
    (∀ j, j < fres.frames.length + rres.frames.length →
      (cycleItem oracle config st (cycle_name, entry)).fs.fileExists
        ((config.cycles_dir ++ [cycle_name]) ++ [frameName j]) = true) := by
  have hg1 : (st.fs.mkdirp (config.singles_dir ++ [entry.shape])).globFrames
      (config.singles_dir ++ [entry.shape]) = [] := by
    rw [mkdirp_globFrames]
    exact hfwd
  have hlen1 : ((save_frames fres.frames (config.singles_dir ++ [entry.shape]) st.fs).1.globFrames (config.singles_dir ++ [entry.shape])).length = fres.frames.length := by
    rw [save_frames_def]
    exact saveFramesGo_globFrames_length_of_empty _ _ 0 _ hg1
  obtain ⟨lastN, hlast⟩ : ∃ m, ((save_frames fres.frames (config.singles_dir ++ [entry.shape]) st.fs).1.globFrames (config.singles_dir ++ [entry.shape])).getLast? = some m := by
    cases hv : ((save_frames fres.frames (config.singles_dir ++ [entry.shape]) st.fs).1.globFrames (config.singles_dir ++ [entry.shape])).getLast? with
    | none =>
      exfalso
      rw [List.getLast?_eq_none_iff] at hv
      rw [hv] at hlen1
      simp at hlen1
      omega
    | some m => exact ⟨m, rfl⟩
  have hskip2 : has_frames st.fs (config.cycles_dir ++ [(cycle_name, entry).1]) 32 =
      false := hskip
  have hfwd2 : (if st.fs.dirExists
        (config.singles_dir ++ [(cycle_name, entry).2.shape]) then
      st.fs.globFrames (config.singles_dir ++ [(cycle_name, entry).2.shape])
    else []) = [] := by
    show (if st.fs.dirExists (config.singles_dir ++ [entry.shape]) then
      st.fs.globFrames (config.singles_dir ++ [entry.shape]) else []) = []
    by_cases hd : st.fs.dirExists (config.singles_dir ++ [entry.shape]) = true
    · rw [if_pos hd]
      exact hfwd
    · rw [if_neg hd]
  have hstep : cycleItem oracle config st (cycle_name, entry) =
      cycleReverse oracle config
        ⟨(save_frames fres.frames (config.singles_dir ++ [entry.shape]) st.fs).1,
          st.log ++ [⟨config.reference, entry.forwardPrompt, .ok fres⟩],
          st.cost + fres.cost⟩
        cycle_name entry ((save_frames fres.frames (config.singles_dir ++ [entry.shape]) st.fs).1.globFrames (config.singles_dir ++ [entry.shape])) := by
    unfold cycleItem
    rw [if_neg (by rw [hskip2]; simp), if_pos hfwd2, hf]
  have hr2 : oracle ((st.log ++
      [(⟨config.reference, entry.forwardPrompt, .ok fres⟩ : CallRecord)]).length) =
      .ok rres := by
    rw [List.length_append, List.length_singleton]
    exact hr
  have hstep2 : cycleReverse oracle config
      ⟨(save_frames fres.frames (config.singles_dir ++ [entry.shape]) st.fs).1,
        st.log ++ [⟨config.reference, entry.forwardPrompt, .ok fres⟩],
        st.cost + fres.cost⟩
      cycle_name entry ((save_frames fres.frames (config.singles_dir ++ [entry.shape]) st.fs).1.globFrames (config.singles_dir ++ [entry.shape])) =
      ⟨(assemble_animation config (config.cycles_dir ++ [cycle_name]) cycle_name (save_frames (((save_frames fres.frames (config.singles_dir ++ [entry.shape]) st.fs).1.globFrames (config.singles_dir ++ [entry.shape])).map (fun n => (⟨b64encode (((save_frames fres.frames (config.singles_dir ++ [entry.shape]) st.fs).1.read (config.singles_dir ++ [entry.shape, n])).getD [])⟩ : Frame)) ++ rres.frames) (config.cycles_dir ++ [cycle_name]) (save_frames fres.frames (config.singles_dir ++ [entry.shape]) st.fs).1).1),
        (st.log ++ [⟨config.reference, entry.forwardPrompt, .ok fres⟩]) ++
          [⟨config.singles_dir ++ [entry.shape, lastN], entry.reversePrompt, .ok rres⟩],
        (st.cost + fres.cost) + rres.cost⟩ := by
    unfold cycleReverse
    rw [hlast, hr2]
  have hfs : (cycleItem oracle config st (cycle_name, entry)).fs = (assemble_animation config (config.cycles_dir ++ [cycle_name]) cycle_name (save_frames (((save_frames fres.frames (config.singles_dir ++ [entry.shape]) st.fs).1.globFrames (config.singles_dir ++ [entry.shape])).map (fun n => (⟨b64encode (((save_frames fres.frames (config.singles_dir ++ [entry.shape]) st.fs).1.read (config.singles_dir ++ [entry.shape, n])).getD [])⟩ : Frame)) ++ rres.frames) (config.cycles_dir ++ [cycle_name]) (save_frames fres.frames (config.singles_dir ++ [entry.shape]) st.fs).1).1) := by
    rw [hstep, hstep2]
  have hcycle_ne_nil : (config.cycles_dir ++ [cycle_name] : Path) ≠ [] := by
    intro hz
    have := congrArg List.length hz
    simp at this
  have hfc : (config.singles_dir ++ [entry.shape] : Path) ≠
      config.cycles_dir ++ [cycle_name] := by
    simp only [PipelineConfig.singles_dir, PipelineConfig.cycles_dir]
    exact kind_path_ne config.outputDir "singles" "cycles" _ _ (by decide)
  have hglobF : ((assemble_animation config (config.cycles_dir ++ [cycle_name]) cycle_name (save_frames (((save_frames fres.frames (config.singles_dir ++ [entry.shape]) st.fs).1.globFrames (config.singles_dir ++ [entry.shape])).map (fun n => (⟨b64encode (((save_frames fres.frames (config.singles_dir ++ [entry.shape]) st.fs).1.read (config.singles_dir ++ [entry.shape, n])).getD [])⟩ : Frame)) ++ rres.frames) (config.cycles_dir ++ [cycle_name]) (save_frames fres.frames (config.singles_dir ++ [entry.shape]) st.fs).1).1)).globFrames (config.singles_dir ++ [entry.shape]) = (save_frames fres.frames (config.singles_dir ++ [entry.shape]) st.fs).1.globFrames (config.singles_dir ++ [entry.shape]) := by
    rw [assemble_animation_globFrames config (config.cycles_dir ++ [cycle_name])
      cycle_name _ (config.singles_dir ++ [entry.shape])
      (by
        rw [List.dropLast_concat]
        exact ne_of_length_ne (by
          simp only [PipelineConfig.singles_dir, PipelineConfig.cycles_dir,
            List.length_append, List.length_singleton]
          omega))
      (ne_of_length_ne (by
        simp only [PipelineConfig.singles_dir, PipelineConfig.static_dir,
          List.length_append, List.length_singleton]
        omega))]
    rw [save_frames_def, saveFramesGo_globFrames_other _ _ _ _ _ hfc, mkdirp_globFrames]
  have hdirF : ((assemble_animation config (config.cycles_dir ++ [cycle_name]) cycle_name (save_frames (((save_frames fres.frames (config.singles_dir ++ [entry.shape]) st.fs).1.globFrames (config.singles_dir ++ [entry.shape])).map (fun n => (⟨b64encode (((save_frames fres.frames (config.singles_dir ++ [entry.shape]) st.fs).1.read (config.singles_dir ++ [entry.shape, n])).getD [])⟩ : Frame)) ++ rres.frames) (config.cycles_dir ++ [cycle_name]) (save_frames fres.frames (config.singles_dir ++ [entry.shape]) st.fs).1).1)).dirExists (config.singles_dir ++ [entry.shape]) = true := by
    apply assemble_animation_dirExists_mono
    rw [save_frames_def]
    apply saveFramesGo_dirExists_mono
    apply FS.dirExists_mkdirp_mono
    exact save_frames_dirExists fres.frames (config.singles_dir ++ [entry.shape]) st.fs
  have hhfF : has_frames ((assemble_animation config (config.cycles_dir ++ [cycle_name]) cycle_name (save_frames (((save_frames fres.frames (config.singles_dir ++ [entry.shape]) st.fs).1.globFrames (config.singles_dir ++ [entry.shape])).map (fun n => (⟨b64encode (((save_frames fres.frames (config.singles_dir ++ [entry.shape]) st.fs).1.read (config.singles_dir ++ [entry.shape, n])).getD [])⟩ : Frame)) ++ rres.frames) (config.cycles_dir ++ [cycle_name]) (save_frames fres.frames (config.singles_dir ++ [entry.shape]) st.fs).1).1)) (config.singles_dir ++ [entry.shape]) 16 = true := by
    apply has_frames_true_of hdirF
    rw [hglobF, hlen1]
    exact h16
  refine ⟨?_, ?_, ?_, ?_⟩
  · intro j hj
    rw [hfs]
    rw [assemble_animation_read config (config.cycles_dir ++ [cycle_name]) cycle_name _ _
      (by
        rw [List.dropLast_concat]
        exact ne_of_length_ne (by
          simp only [PipelineConfig.singles_dir, PipelineConfig.cycles_dir,
            List.length_append, List.length_singleton]
          omega))
      (ne_of_length_ne (by
        simp only [PipelineConfig.singles_dir, PipelineConfig.static_dir,
          List.length_append, List.length_singleton]
        omega))]
    rw [save_frames_def]
    rw [saveFramesGo_read_other _ _ _ _ _ (by
      intro j2 _
      simp only [PipelineConfig.singles_dir, PipelineConfig.cycles_dir]
      exact kind_frame_path_ne config.outputDir "singles" "cycles" _ _ _ _ (by decide))]
    rw [FS.read_mkdirp]
    rw [save_frames_def]
    have hread := saveFramesGo_read_saved (config.singles_dir ++ [entry.shape])
      fres.frames 0 (st.fs.mkdirp (config.singles_dir ++ [entry.shape])) j hj
    rw [Nat.zero_add] at hread
    exact hread
  · rw [hfs]
    exact hhfF
  · intro oracle2 sentry l c
    unfold singleItem
    have hx : has_frames
        (⟨(cycleItem oracle config st (cycle_name, entry)).fs, l, c⟩ : RunState).fs
        (config.singles_dir ++ [(entry.shape, sentry).1]) 16 = true := by
      show has_frames (cycleItem oracle config st (cycle_name, entry)).fs
        (config.singles_dir ++ [entry.shape]) 16 = true
      rw [hfs]
      exact hhfF
    rw [if_pos hx]
  · intro j hj
    have hjC : j < ((((save_frames fres.frames (config.singles_dir ++ [entry.shape]) st.fs).1.globFrames (config.singles_dir ++ [entry.shape])).map (fun n => (⟨b64encode (((save_frames fres.frames (config.singles_dir ++ [entry.shape]) st.fs).1.read (config.singles_dir ++ [entry.shape, n])).getD [])⟩ : Frame)) ++ rres.frames)).length := by
      rw [List.length_append, List.length_map, hlen1]
      exact hj
    unfold FS.fileExists
    rw [hfs]
    rw [assemble_animation_read config (config.cycles_dir ++ [cycle_name]) cycle_name _ _
      (ne_gif_path _ _ hcycle_ne_nil)
      (ne_of_length_ne (by
        simp only [PipelineConfig.cycles_dir, PipelineConfig.static_dir,
          List.length_append, List.length_singleton]
        omega))]
    rw [save_frames_def]
    have hread := saveFramesGo_read_saved (config.cycles_dir ++ [cycle_name])
      ((((save_frames fres.frames (config.singles_dir ++ [entry.shape]) st.fs).1.globFrames (config.singles_dir ++ [entry.shape])).map (fun n => (⟨b64encode (((save_frames fres.frames (config.singles_dir ++ [entry.shape]) st.fs).1.read (config.singles_dir ++ [entry.shape, n])).getD [])⟩ : Frame)) ++ rres.frames)) 0 (((save_frames fres.frames (config.singles_dir ++ [entry.shape]) st.fs).1).mkdirp (config.cycles_dir ++ [cycle_name])) j hjC
    rw [Nat.zero_add] at hread
    rw [hread]
    rfl

/-- Oracle used by the C10 witness: every call succeeds with 16 frames at
cost 1 (the forward call first, the reverse call next). -/
def cycleOracle : Oracle := fun i =>
  if i = 0 then .ok ⟨List.replicate 16 ⟨"QUJD"⟩, 1⟩
  else .ok ⟨List.replicate 16 ⟨"REVG"⟩, 1⟩

set_option maxRecDepth 100000 in
theorem C10_cycle_forward_persisted_witness :
    has_frames emptyFS (exampleCostConfig.cycles_dir ++ ["cycle_flame"]) 32 = false ∧
    emptyFS.globFrames (exampleCostConfig.singles_dir ++ ["flame"]) = [] ∧
    has_frames (cycleItem cycleOracle exampleCostConfig ⟨emptyFS, [], 0⟩
        ("cycle_flame", ⟨"flame", "becomes a flame", "flame returns to gold"⟩)).fs
      (exampleCostConfig.singles_dir ++ ["flame"]) 16 = true ∧
    (cycleItem cycleOracle exampleCostConfig ⟨emptyFS, [], 0⟩
        ("cycle_flame", ⟨"flame", "becomes a flame",
          "flame returns to gold"⟩)).fs.fileExists
      ((exampleCostConfig.cycles_dir ++ ["cycle_flame"]) ++ [frameName 0]) = true := by
  have happ := C10_cycle_forward_persisted cycleOracle exampleCostConfig ⟨emptyFS, [], 0⟩
    "cycle_flame" ⟨"flame", "becomes a flame", "flame returns to gold"⟩
    ⟨List.replicate 16 ⟨"QUJD"⟩, 1⟩ ⟨List.replicate 16 ⟨"REVG"⟩, 1⟩
    (by decide) rfl rfl rfl (by decide)
  exact ⟨by decide, rfl, happ.2.1, happ.2.2.2 0 (by decide)⟩

end PixelArt
